import Mathlib

/-!
# ctkXnatTreeModel: the lazy tree adapter over a remote XNAT hierarchy

A shallow embedding of `Libs/XNAT/Core/ctkXnatTreeModel.cpp`.

* Remote objects (`ctkXnatObject`) live in a heap addressed by pointers; the
  pointer `0` is `NULL`.
* Tree items (`ctkXnatTreeItem`) form the presentation tree.  An item owns its
  child items, so the tree is an inductive value; an item pointer is the path
  of rows leading from the synthetic root to the item.
* Calls into the view framework (`beginInsertRows`, ...) and into the remote
  collaborator (`fetch`, `download`) are recorded in a log of events.
* A dereference of a null pointer or an out-of-range `QList::operator[]` is a
  `Fault`; the recursion of `refresh` is driven by a fuel argument.
-/

namespace XnatTree

/-- A pointer to a remote object; `0` is the null pointer. -/
abbrev ObjPtr := Nat

/-- Modelled from the spec: the attributes of a remote object (class
`ctkXnatObject`, whose code is not part of the sources at hand): identifier
(possibly empty), display name, label and description used by `data`,
fetched-flag, existence-flag and the ordered list of child remote objects. -/
structure ctkXnatObject where
  id : String
  name : String
  label : String
  description : String
  isFetched : Bool
  exists_ : Bool
  children : List ObjPtr

/-- The remote objects that are alive, by pointer. -/
abbrev Heap := ObjPtr → ctkXnatObject

/-- Modelled from the spec: `ctkXnatObject::fetch(forceRefetch)` of the remote
collaborator, "calling fetch on a remote object populates its children from the
remote source".  What the remote source answers is not decided by the adapter,
so a collaborator is any function from the object, the force flag and the
current heap to the heap after the call. -/
abbrev Fetch := ObjPtr → Bool → Heap → Heap

/-- Modelled from the spec: `ctkXnatObject::remove(child)`, which detaches
`child` from the child collection of `parent` (its first occurrence). -/
def objectRemove (h : Heap) (parent child : ObjPtr) : Heap :=
  Function.update h parent { h parent with children := (h parent).children.erase child }

/-- Modelled from the spec: the tree item (class `ctkXnatTreeItem`, whose code is
not part of the sources at hand), "a presentation-layer wrapper pairing a remote
object with a parent/children structure": the wrapped remote object (`0` for the
synthetic root) and the exclusively owned child items.  `m_ParentItem` is the
enclosing item, and `row()` of the `i`-th child item is `i`. -/
inductive ctkXnatTreeItem where
  | mk (m_XnatObject : ObjPtr) (m_ChildItems : List ctkXnatTreeItem)

namespace ctkXnatTreeItem

/-- Modelled from the spec: `ctkXnatTreeItem::xnatObject()`. -/
def xnatObject : ctkXnatTreeItem → ObjPtr
  | mk o _ => o

/-- The owned child items, in row order. -/
def childItems : ctkXnatTreeItem → List ctkXnatTreeItem
  | mk _ cs => cs

/-- Modelled from the spec: `ctkXnatTreeItem::childCount()`. -/
def childCount (t : ctkXnatTreeItem) : Nat := t.childItems.length

/-- Modelled from the spec: `ctkXnatTreeItem::child(row)`, the null pointer
(`none`) when `row` is not a row of the item. -/
def child (t : ctkXnatTreeItem) (row : Int) : Option ctkXnatTreeItem :=
  if row < 0 then none else t.childItems[row.toNat]?

/-- Modelled from the spec: `ctkXnatTreeItem::appendChild(item)`. -/
def appendChild (t : ctkXnatTreeItem) (c : ctkXnatTreeItem) : ctkXnatTreeItem :=
  mk t.xnatObject (t.childItems ++ [c])

/-- Modelled from the spec: `ctkXnatTreeItem::remove(xnatObject)`, which
detaches (and destroys) the first child item wrapping `o`. -/
def remove (t : ctkXnatTreeItem) (o : ObjPtr) : ctkXnatTreeItem :=
  mk t.xnatObject (t.childItems.eraseP (fun c => c.xnatObject == o))

/-- A freshly created item `new ctkXnatTreeItem(child, item)`. -/
def leaf (o : ObjPtr) : ctkXnatTreeItem := mk o []

/-- The item reached from `t` by following the rows of `path`. -/
def itemAtPath : ctkXnatTreeItem → List Nat → Option ctkXnatTreeItem
  | t, [] => some t
  | t, r :: rs =>
    match t.childItems[r]? with
    | none => none
    | some c => itemAtPath c rs

/-- The tree `t` with the item at `path` replaced by `new`. -/
def replaceAtPath : ctkXnatTreeItem → List Nat → ctkXnatTreeItem → ctkXnatTreeItem
  | _, [], new => new
  | t, r :: rs, new =>
    match t.childItems[r]? with
    | none => t
    | some c => mk t.xnatObject (t.childItems.set r (replaceAtPath c rs new))

end ctkXnatTreeItem

/-- Qt's `QModelIndex`: row, column and the internal pointer, here the path of
the addressed tree item (`none` is the null pointer). -/
structure QModelIndex where
  row : Int
  column : Int
  internalPointer : Option (List Nat)
deriving DecidableEq

namespace QModelIndex

/-- The default-constructed `QModelIndex()`: the invalid address. -/
def invalid : QModelIndex := ⟨-1, -1, none⟩

/-- Qt's `QModelIndex::isValid()`: row and column are not negative (the model
pointer of an address of this model is never null). -/
def isValid (i : QModelIndex) : Bool := decide (0 ≤ i.row) && decide (0 ≤ i.column)

end QModelIndex

/-- Qt's `createIndex(row, column, item)`. -/
def createIndex (row column : Int) (item : List Nat) : QModelIndex :=
  ⟨row, column, some item⟩

/-- The calls the adapter makes into the view framework and into the remote
collaborator, together with the mutations of the presentation tree. -/
inductive Event where
  | fetch (o : ObjPtr) (force : Bool) (wasFetched : Bool)
  | beginInsertRows (parent : QModelIndex) (first last : Int)
  | appendChild (parent : QModelIndex) (o : ObjPtr)
  | endInsertRows
  | beginRemoveRows (parent : QModelIndex) (first last : Int)
  | removeItem (parent : QModelIndex) (o : ObjPtr)
  | objectRemove (parent child : ObjPtr)
  | endRemoveRows
  | download (o : ObjPtr) (zipFileName : String)
deriving DecidableEq

/-- What stops an operation before it returns. -/
inductive Fault where
  | nullPointer
  | outOfRange
  | outOfFuel
deriving DecidableEq

/-- The matching test of `refresh` (lines 282-283) between the object of a
scanned tree item and a server child. -/
def sameObject (childItemObject child : ctkXnatObject) : Bool :=
  (childItemObject.id.length != 0 && childItemObject.id == child.id) ||
  (childItemObject.id.length == 0 && childItemObject.name == child.name)

/-- The adapter `ctkXnatTreeModel` (its synthetic root item) together with the
remote objects it refers to and the log of the calls made so far. -/
structure State where
  m_RootItem : ctkXnatTreeItem
  heap : Heap
  log : List Event

/-- The private `itemAt(index)`: a cast of the internal pointer, `none` when the
pointer is null or addresses no item of the tree. -/
def itemAt (s : State) (index : QModelIndex) : Option ctkXnatTreeItem :=
  match index.internalPointer with
  | none => none
  | some p => s.m_RootItem.itemAtPath p

/-- The value `rowCount(index)` takes once `index` has been resolved to `item`
(lines 146-165). -/
def rowCountOf (index : QModelIndex) (item : ctkXnatTreeItem) : Nat :=
  if index.column > 0 then 0 else item.childCount

/-- The address `index(i, 0, parent)` of the `i`-th child item of a resolved
parent: `createIndex(i, 0, item->child(i))`. -/
def childIndex (parent : QModelIndex) (i : Nat) : QModelIndex :=
  match parent.internalPointer with
  | none => QModelIndex.invalid
  | some p => createIndex i 0 (p ++ [i])

/-- How the inner `for` loop of `refresh` (lines 263-288) ends. -/
inductive ScanOutcome where
  | removed (i : Nat) (childItemObject : ObjPtr)
  | present
  | absent
  | fault (f : Fault)
deriving DecidableEq

/-- The inner `for` loop of `refresh` (lines 263-288) from position `i` with
`remaining = numChildren - i` positions to go, for the server child `child`.
The loop only decides; the removal itself is carried out by `refreshChild`. -/
def scan (h : Heap) (child : ObjPtr) (item : ctkXnatTreeItem) : Nat → Nat → ScanOutcome
  | _, 0 => ScanOutcome.absent
  | i, remaining + 1 =>
    match item.child i with
    | none => ScanOutcome.fault Fault.nullPointer
    | some c =>
      if c.xnatObject = 0 then ScanOutcome.fault Fault.nullPointer
      else if !(h c.xnatObject).exists_ then ScanOutcome.removed i c.xnatObject
      else if child = 0 then ScanOutcome.fault Fault.nullPointer
      else if sameObject (h c.xnatObject) (h child) then ScanOutcome.present
      else scan h child item (i + 1) remaining

/-- The variables of `refresh` that its `while` loop changes. -/
structure Loop where
  item : ctkXnatTreeItem
  heap : Heap
  numChildren : Nat
  log : List Event

/-- One round of the `while` loop of `refresh` (lines 262-300) for the server
child `child` of `xnatObject`. -/
def refreshChild (parent : QModelIndex) (xnatObject : ObjPtr) (st : Loop) (child : ObjPtr) :
    Except Fault Loop :=
  match scan st.heap child st.item 0 st.numChildren with
  | ScanOutcome.fault f => Except.error f
  | ScanOutcome.removed i childItemObject =>
    Except.ok
      { item := st.item.remove childItemObject
        heap := objectRemove st.heap xnatObject child
        numChildren := st.numChildren - 1
        log := st.log ++ [Event.beginRemoveRows parent i i, Event.removeItem parent childItemObject,
                 Event.objectRemove xnatObject child, Event.endRemoveRows] }
  | ScanOutcome.present => Except.ok st
  | ScanOutcome.absent =>
    Except.ok
      { item := st.item.appendChild (ctkXnatTreeItem.leaf child)
        heap := st.heap
        numChildren := st.numChildren + 1
        log := st.log ++ [Event.beginInsertRows parent 0 (max 0 ((st.numChildren : Int) - 1)),
                 Event.appendChild parent child, Event.endInsertRows] }

/-- The `while` loop of `refresh` (lines 260-301) over the snapshot `children`
of the server children taken after the forced fetch. -/
def reconcile (parent : QModelIndex) (xnatObject : ObjPtr) : List ObjPtr → Loop → Except Fault Loop
  | [], st => Except.ok st
  | child :: rest, st =>
    match refreshChild parent xnatObject st child with
    | Except.error f => Except.error f
    | Except.ok st1 => reconcile parent xnatObject rest st1

/-- The result of refreshing one item: the item, the heap and the calls made. -/
abbrev Refreshed := ctkXnatTreeItem × Heap × List Event

/-- The last loop of `refresh` (lines 304-307): `refresh(index(i, 0, parent))`
for the rows `i, i + 1, ...` holding the items `cs`, left to right. -/
def refreshRows (recurse : QModelIndex → ctkXnatTreeItem → Heap → Except Fault Refreshed)
    (parent : QModelIndex) : Nat → List ctkXnatTreeItem → Heap →
    Except Fault (List ctkXnatTreeItem × Heap × List Event)
  | _, [], h => Except.ok ([], h, [])
  | i, c :: cs, h =>
    match recurse (childIndex parent i) c h with
    | Except.error f => Except.error f
    | Except.ok (c1, h1, l1) =>
      match refreshRows recurse parent (i + 1) cs h1 with
      | Except.error f => Except.error f
      | Except.ok (cs1, h2, l2) => Except.ok (c1 :: cs1, h2, l1 ++ l2)

/-- The body of `refresh(parent)` (lines 229-309) once `parent` has been
resolved to `item`; `fuel` bounds the depth of the recursion. -/
def refreshItem (fetch : Fetch) : Nat → QModelIndex → ctkXnatTreeItem → Heap → Except Fault Refreshed
  | 0, _, _, _ => Except.error Fault.outOfFuel
  | fuel + 1, parent, item, h =>
    if !parent.isValid then Except.ok (item, h, [])
    else if item.xnatObject = 0 then Except.error Fault.nullPointer
    else if !(h item.xnatObject).isFetched then Except.ok (item, h, [])
    else
      let h1 := fetch item.xnatObject true h
      match reconcile parent item.xnatObject (h1 item.xnatObject).children
          { item := item, heap := h1, numChildren := rowCountOf parent item,
            log := [Event.fetch item.xnatObject true (h item.xnatObject).isFetched] } with
      | Except.error f => Except.error f
      | Except.ok st =>
        let numChildren := rowCountOf parent st.item
        match refreshRows (refreshItem fetch fuel) parent 0 (st.item.childItems.take numChildren)
            st.heap with
        | Except.error f => Except.error f
        | Except.ok (cs, h2, l) =>
          Except.ok (ctkXnatTreeItem.mk item.xnatObject (cs ++ st.item.childItems.drop numChildren),
            h2, st.log ++ l)

/-- The operation `ctkXnatTreeModel::refresh(parent)` (lines 229-309). -/
def refresh (fetch : Fetch) (fuel : Nat) (parent : QModelIndex) (s : State) : Except Fault State :=
  if !parent.isValid then Except.ok s
  else
    match parent.internalPointer with
    | none => Except.error Fault.nullPointer
    | some p =>
      match s.m_RootItem.itemAtPath p with
      | none => Except.error Fault.nullPointer
      | some item =>
        match refreshItem fetch fuel parent item s.heap with
        | Except.error f => Except.error f
        | Except.ok (item1, h1, l) =>
          Except.ok { m_RootItem := s.m_RootItem.replaceAtPath p item1, heap := h1, log := s.log ++ l }

/-- Qt's `QVariant`, as far as `data` produces it. -/
inductive QVariant where
  | invalid
  | int (v : Int)
  | string (v : String)
  | object (o : ObjPtr)
deriving DecidableEq

/-- Qt's item data roles, as far as `data` tells them apart. -/
inductive ItemDataRole where
  | DisplayRole
  | ToolTipRole
  | TextAlignmentRole
  | UserRole
  | other (role : Nat)
deriving DecidableEq

/-- The accessor `ctkXnatTreeModel::xnatObject(index)` (lines 312-316): the item
pointer is dereferenced without a check. -/
def xnatObject (s : State) (index : QModelIndex) : Except Fault ObjPtr :=
  match itemAt s index with
  | none => Except.error Fault.nullPointer
  | some item => Except.ok item.xnatObject

/-- The operation `ctkXnatTreeModel::data(index, role)` (lines 62-94);
`Qt::AlignTop | Qt::AlignLeft` is `0x20 | 0x01`. -/
def data (s : State) (index : QModelIndex) (role : ItemDataRole) : Except Fault QVariant :=
  if !index.isValid then Except.ok QVariant.invalid
  else
    match role with
    | ItemDataRole.TextAlignmentRole => Except.ok (QVariant.int 33)
    | ItemDataRole.DisplayRole =>
      match xnatObject s index with
      | Except.error f => Except.error f
      | Except.ok o =>
        if o = 0 then Except.error Fault.nullPointer
        else if (s.heap o).name.isEmpty then Except.ok (QVariant.string (s.heap o).label)
        else Except.ok (QVariant.string (s.heap o).name)
    | ItemDataRole.ToolTipRole =>
      match xnatObject s index with
      | Except.error f => Except.error f
      | Except.ok o =>
        if o = 0 then Except.error Fault.nullPointer
        else Except.ok (QVariant.string (s.heap o).description)
    | ItemDataRole.UserRole =>
      match xnatObject s index with
      | Except.error f => Except.error f
      | Except.ok o => Except.ok (QVariant.object o)
    | ItemDataRole.other _ => Except.ok QVariant.invalid

/-- The operation `ctkXnatTreeModel::rowCount(index)` (lines 146-165). -/
def rowCount (s : State) (index : QModelIndex) : Except Fault Int :=
  if index.column > 0 then Except.ok 0
  else if !index.isValid then Except.ok s.m_RootItem.childCount
  else
    match itemAt s index with
    | none => Except.error Fault.nullPointer
    | some item => Except.ok item.childCount

/-- The operation `ctkXnatTreeModel::columnCount(index)` (lines 168-172). -/
def columnCount (_index : QModelIndex) : Int := 1

/-- Qt's `QAbstractItemModel::hasIndex(row, column, parent)`. -/
def hasIndex (s : State) (row column : Int) (parent : QModelIndex) : Except Fault Bool :=
  if row < 0 ∨ column < 0 then Except.ok false
  else
    match rowCount s parent with
    | Except.error f => Except.error f
    | Except.ok n => Except.ok (decide (row < n) && decide (column < columnCount parent))

/-- The operation `ctkXnatTreeModel::index(row, column, index)` (lines 97-123):
for an invalid `parent` the children of the synthetic root are addressed. -/
def index (s : State) (row column : Int) (parent : QModelIndex) : Except Fault QModelIndex :=
  match hasIndex s row column parent with
  | Except.error f => Except.error f
  | Except.ok false => Except.ok QModelIndex.invalid
  | Except.ok true =>
    if !parent.isValid then
      match s.m_RootItem.child row with
      | none => Except.ok QModelIndex.invalid
      | some _ => Except.ok (createIndex row column [row.toNat])
    else
      match parent.internalPointer with
      | none => Except.error Fault.nullPointer
      | some p =>
        match s.m_RootItem.itemAtPath p with
        | none => Except.error Fault.nullPointer
        | some item =>
          match item.child row with
          | none => Except.ok QModelIndex.invalid
          | some _ => Except.ok (createIndex row column (p ++ [row.toNat]))

/-- The operation `ctkXnatTreeModel::parent(index)` (lines 126-143).  The parent
item of the item at path `p` is the item at `p` without its last row, and
`parentItem->row()` is the last row of that shorter path; the synthetic root
itself has a null parent. -/
def parent (s : State) (index : QModelIndex) : Except Fault QModelIndex :=
  if !index.isValid then Except.ok QModelIndex.invalid
  else
    match index.internalPointer with
    | none => Except.error Fault.nullPointer
    | some p =>
      match s.m_RootItem.itemAtPath p with
      | none => Except.error Fault.nullPointer
      | some _ =>
        match p.dropLast.getLast? with
        | none => if p = [] then Except.error Fault.nullPointer else Except.ok QModelIndex.invalid
        | some r => Except.ok (createIndex r 0 p.dropLast)

/-- The operation `ctkXnatTreeModel::hasChildren(index)` (lines 175-186).  For a
valid address the result is `item->xnatObject() || ...`: a non-null object makes
the disjunction true before the fetched-flag and the child list are looked at,
and with a null object the next disjunct dereferences it. -/
def hasChildren (s : State) (index : QModelIndex) : Except Fault Bool :=
  if !index.isValid then Except.ok (decide (s.m_RootItem.childCount > 0))
  else
    match itemAt s index with
    | none => Except.error Fault.nullPointer
    | some item =>
      if item.xnatObject ≠ 0 then Except.ok true
      else Except.error Fault.nullPointer

/-- The operation `ctkXnatTreeModel::canFetchMore(index)` (lines 189-199). -/
def canFetchMore (s : State) (index : QModelIndex) : Except Fault Bool :=
  if !index.isValid then Except.ok false
  else
    match itemAt s index with
    | none => Except.error Fault.nullPointer
    | some item => Except.ok (!decide (item.childCount > 0))

/-- The operation `ctkXnatTreeModel::fetchMore(index)` (lines 202-226); the
call `fetch()` leaves the force flag at its default, `false`. -/
def fetchMore (fetch : Fetch) (index : QModelIndex) (s : State) : Except Fault State :=
  if !index.isValid then Except.ok s
  else
    match index.internalPointer with
    | none => Except.error Fault.nullPointer
    | some p =>
      match s.m_RootItem.itemAtPath p with
      | none => Except.error Fault.nullPointer
      | some item =>
        if item.xnatObject = 0 then Except.error Fault.nullPointer
        else
          let h1 := fetch item.xnatObject false s.heap
          let children := (h1 item.xnatObject).children
          let called := Event.fetch item.xnatObject false (s.heap item.xnatObject).isFetched
          if children.isEmpty then
            Except.ok { m_RootItem := s.m_RootItem, heap := h1, log := s.log ++ [called] }
          else
            Except.ok
              { m_RootItem := s.m_RootItem.replaceAtPath p
                  (children.foldl (fun it child => it.appendChild (ctkXnatTreeItem.leaf child)) item)
                heap := h1
                log := s.log ++ [called, Event.beginInsertRows index 0 ((children.length : Int) - 1)]
                  ++ children.map (Event.appendChild index) ++ [Event.endInsertRows] }

/-- The operation `ctkXnatTreeModel::addDataModel(dataModel)` (lines 319-323). -/
def addDataModel (dataModel : ObjPtr) (s : State) : State :=
  { s with m_RootItem := s.m_RootItem.appendChild (ctkXnatTreeItem.leaf dataModel) }

/-- The operation `ctkXnatTreeModel::removeDataModel(dataModel)` (lines 326-330). -/
def removeDataModel (dataModel : ObjPtr) (s : State) : State :=
  { s with m_RootItem := s.m_RootItem.remove dataModel }

/-- The operation `ctkXnatTreeModel::removeAllRows(parent)` (lines 333-368);
`QList::operator[]` outside the list is a fault. -/
def removeAllRows (parent : QModelIndex) (s : State) : Except Fault (Bool × State) :=
  if !parent.isValid then Except.ok (false, s)
  else
    match xnatObject s parent with
    | Except.error f => Except.error f
    | Except.ok xnatObject =>
      if xnatObject = 0 then Except.error Fault.nullPointer
      else
        match (s.heap xnatObject).children[parent.row.toNat]? with
        | none => Except.error Fault.outOfRange
        | some child =>
          if child = 0 then Except.ok (false, s)
          else
            let numberofchildren : Int := (s.heap child).children.length
            if numberofchildren > 0 then
              Except.ok (true,
                { s with
                  heap := objectRemove s.heap xnatObject child
                  log := s.log ++ [Event.beginRemoveRows parent 0 (numberofchildren - 1),
                    Event.objectRemove xnatObject child, Event.endRemoveRows] })
            else
              Except.ok (true,
                { s with
                  heap := objectRemove s.heap xnatObject child
                  log := s.log ++ [Event.objectRemove xnatObject child] })

/-- The operation `ctkXnatTreeModel::downloadFile(index, zipFileName)`
(lines 371-381). -/
def downloadFile (index : QModelIndex) (zipFileName : String) (s : State) : Except Fault State :=
  if !index.isValid then Except.ok s
  else
    match xnatObject s index with
    | Except.error f => Except.error f
    | Except.ok o =>
      if o = 0 then Except.error Fault.nullPointer
      else Except.ok { s with log := s.log ++ [Event.download o zipFileName] }

/-- The operation `ctkXnatTreeModel::addChildNode(index, child)` (lines
384-392): the item pointer is dereferenced without a check. -/
def addChildNode (index : QModelIndex) (child : ObjPtr) (s : State) : Except Fault State :=
  match index.internalPointer with
  | none => Except.error Fault.nullPointer
  | some p =>
    match s.m_RootItem.itemAtPath p with
    | none => Except.error Fault.nullPointer
    | some item =>
      Except.ok
        { s with
          m_RootItem := s.m_RootItem.replaceAtPath p (item.appendChild (ctkXnatTreeItem.leaf child))
          log := s.log ++ [Event.beginInsertRows index 0 1, Event.appendChild index child,
            Event.endInsertRows] }

/-- The wrapped objects of the presentation children of the item at `index`,
in row order. -/
def presentationChildren (s : State) (index : QModelIndex) : Option (List ObjPtr) :=
  (itemAt s index).map (fun item => item.childItems.map ctkXnatTreeItem.xnatObject)

/-- The inner loop of `refresh` read off a list of items: the outcome of scanning
`cs` when its head sits at position `i`. -/
def scanList (h : Heap) (child : ObjPtr) : Nat → List ctkXnatTreeItem → ScanOutcome
  | _, [] => ScanOutcome.absent
  | i, c :: cs =>
    if c.xnatObject = 0 then ScanOutcome.fault Fault.nullPointer
    else if !(h c.xnatObject).exists_ then ScanOutcome.removed i c.xnatObject
    else if child = 0 then ScanOutcome.fault Fault.nullPointer
    else if sameObject (h c.xnatObject) (h child) then ScanOutcome.present
    else scanList h child (i + 1) cs

/-- The remote hierarchy has levels: whatever a forced fetch of `o` reports as
children of `o` are objects of a strictly smaller rank. -/
def Ranked (fetch : Fetch) (rank : ObjPtr → Nat) : Prop :=
  ∀ (o : ObjPtr) (h : Heap) (c : ObjPtr), c ∈ ((fetch o true h) o).children → c ≠ 0 ∧ rank c < rank o

/-- The recursion depth `n` is enough for refreshing an item: every item of the
subtree wraps an object, and neither the subtree nor the levels of the remote
hierarchy below its objects go deeper than `n`. -/
inductive DepthBounded (rank : ObjPtr → Nat) : Nat → ctkXnatTreeItem → Prop where
  | mk (n : Nat) (o : ObjPtr) (cs : List ctkXnatTreeItem) :
      o ≠ 0 → rank o ≤ n → (∀ c ∈ cs, DepthBounded rank n c) →
      DepthBounded rank (n + 1) (ctkXnatTreeItem.mk o cs)

mutual
/-- The heap after the fetches `refresh` makes on an item whose subtree is in
step with the server: a forced fetch of every fetched item, depth-first. -/
def heapAfter (fetch : Fetch) : ctkXnatTreeItem → Heap → Heap
  | ctkXnatTreeItem.mk o cs, h =>
    if (h o).isFetched then heapAfterRows fetch cs (fetch o true h) else h
/-- The heap after the fetches made for the items of a list, left to right. -/
def heapAfterRows (fetch : Fetch) : List ctkXnatTreeItem → Heap → Heap
  | [], h => h
  | c :: cs, h => heapAfterRows fetch cs (heapAfter fetch c h)
end

mutual
/-- The presentation subtree is in step with the server: whenever `refresh`
visits a fetched item, the child list the forced fetch reports consists of
exactly the objects wrapped by the item's children, all of which exist; and
likewise for the children, each at the heap in which it is visited. -/
def InSync (fetch : Fetch) : ctkXnatTreeItem → Heap → Prop
  | ctkXnatTreeItem.mk o cs, h =>
    o ≠ 0 ∧ ((h o).isFetched = true →
      ((fetch o true h) o).children = cs.map ctkXnatTreeItem.xnatObject ∧
      (∀ c ∈ cs, c.xnatObject ≠ 0 ∧ ((fetch o true h) c.xnatObject).exists_ = true) ∧
      InSyncRows fetch cs (fetch o true h))
/-- The items of a list are in step with the server, each at the heap left by
the refresh of the items before it. -/
def InSyncRows (fetch : Fetch) : List ctkXnatTreeItem → Heap → Prop
  | [], _ => True
  | c :: cs, h => InSync fetch c h ∧ InSyncRows fetch cs (heapAfter fetch c h)
end

/-- The collaborator keeps the fetched-flag honest: a fetch of `o` leaves `o`
fetched, and no fetch clears the fetched-flag of any object. -/
def FetchMarks (fetch : Fetch) : Prop :=
  ∀ (o : ObjPtr) (force : Bool) (h : Heap),
    ((fetch o force h) o).isFetched = true ∧
    ∀ p, (h p).isFetched = true → ((fetch o force h) p).isFetched = true

/-- The subtree is lazily populated: an item whose object is not fetched has no
presentation children, and so on below it. -/
inductive Lazy (h : Heap) : ctkXnatTreeItem → Prop where
  | mk (o : ObjPtr) (cs : List ctkXnatTreeItem) :
      ((h o).isFetched = false → cs = []) → (∀ c ∈ cs, Lazy h c) →
      Lazy h (ctkXnatTreeItem.mk o cs)

/-- The states the adapter reaches from a newly constructed model (an empty
synthetic root, any remote objects) through its operations.  `addChildNode` at
an item whose object is fetched is always among them; `addChildNode` at any
item is among them when `withAddChildNode` is true. -/
inductive Reachable (fetch : Fetch) (withAddChildNode : Bool) : State → Prop where
  | init (h : Heap) :
      Reachable fetch withAddChildNode { m_RootItem := ctkXnatTreeItem.mk 0 [], heap := h, log := [] }
  | addDataModel (s : State) (dataModel : ObjPtr) :
      Reachable fetch withAddChildNode s → Reachable fetch withAddChildNode (addDataModel dataModel s)
  | removeDataModel (s : State) (dataModel : ObjPtr) :
      Reachable fetch withAddChildNode s →
      Reachable fetch withAddChildNode (removeDataModel dataModel s)
  | fetchMore (s s1 : State) (index : QModelIndex) :
      Reachable fetch withAddChildNode s → fetchMore fetch index s = Except.ok s1 →
      Reachable fetch withAddChildNode s1
  | refresh (s s1 : State) (fuel : Nat) (index : QModelIndex) :
      Reachable fetch withAddChildNode s → refresh fetch fuel index s = Except.ok s1 →
      Reachable fetch withAddChildNode s1
  | removeAllRows (s s1 : State) (removed : Bool) (index : QModelIndex) :
      Reachable fetch withAddChildNode s → removeAllRows index s = Except.ok (removed, s1) →
      Reachable fetch withAddChildNode s1
  | downloadFile (s s1 : State) (index : QModelIndex) (zipFileName : String) :
      Reachable fetch withAddChildNode s → downloadFile index zipFileName s = Except.ok s1 →
      Reachable fetch withAddChildNode s1
  | addChildNode (s s1 : State) (index : QModelIndex) (child : ObjPtr) :
      withAddChildNode = true → Reachable fetch withAddChildNode s →
      addChildNode index child s = Except.ok s1 → Reachable fetch withAddChildNode s1
  | addChildNodeFetched (s s1 : State) (index : QModelIndex) (item : ctkXnatTreeItem)
      (child : ObjPtr) :
      Reachable fetch withAddChildNode s → itemAt s index = some item →
      (s.heap item.xnatObject).isFetched = true →
      addChildNode index child s = Except.ok s1 → Reachable fetch withAddChildNode s1

/-- The invariant of the states reached when `addChildNode` is only used at items
whose object is fetched: the synthetic root wraps no object and every item below
it is lazily populated. -/
def RootLazy (s : State) : Prop :=
  s.m_RootItem.xnatObject = 0 ∧ ∀ c ∈ s.m_RootItem.childItems, Lazy s.heap c

/-! ## Example data -/

/-- An example collaborator: a forced or first fetch of `o` marks `o` fetched and
sets its child list to `kids o`; the objects listed in `dead` are reported as no
longer existing. -/
def exServer (kids : ObjPtr → List ObjPtr) (dead : List ObjPtr) : Fetch :=
  fun o _ h p =>
    { h p with
      isFetched := (h p).isFetched || p == o
      exists_ := !(dead.contains p)
      children := if p = o then kids o else (h p).children }

/-- An example remote object with the given identifier and name. -/
def exObject (id name : String) (isFetched : Bool) (children : List ObjPtr) : ctkXnatObject :=
  { id := id, name := name, label := "", description := "", isFetched := isFetched,
    exists_ := true, children := children }

/-- An example heap: the fetched project `P` (pointer 1) with the children `A`
(pointer 2, id 1) and `B` (pointer 3, id 2), and a further object `C` (pointer 4,
id 3). -/
def exHeap : Heap := fun p =>
  match p with
  | 1 => exObject "p" "P" true [2, 3]
  | 2 => exObject "1" "A" false []
  | 3 => exObject "2" "B" false []
  | 4 => exObject "3" "C" false []
  | _ => exObject "" "" false []

/-- The tree item of `P` with the presentation children `[A, B]`. -/
def exItem : ctkXnatTreeItem :=
  ctkXnatTreeItem.mk 1 [ctkXnatTreeItem.leaf 2, ctkXnatTreeItem.leaf 3]

/-- An example state: `P` is the only top-level entry. -/
def exState : State := { m_RootItem := ctkXnatTreeItem.mk 0 [exItem], heap := exHeap, log := [] }

/-- The address of `P` in `exState`. -/
def exP : QModelIndex := createIndex 0 0 [0]

/-- The levels of the example hierarchy. -/
def exRank : ObjPtr → Nat := fun o => if o = 1 then 1 else 0

/-- An example heap in which nothing has been fetched. -/
def exUnfetched : Heap := fun _ => exObject "" "" false []

/-- The state reached from a new model over `exUnfetched` by `addDataModel(1)`
followed by `addChildNode` of the object 2 under it. -/
def exAdded : State :=
  { m_RootItem := ctkXnatTreeItem.mk 0 [ctkXnatTreeItem.mk 1 [ctkXnatTreeItem.leaf 2]]
    heap := exUnfetched
    log := [Event.beginInsertRows exP 0 1, Event.appendChild exP 2, Event.endInsertRows] }

/-- The example state with a null pointer in the child list of `P`. -/
def exNullChild : State :=
  { m_RootItem := exState.m_RootItem
    heap := Function.update exHeap 1 (exObject "p" "P" true [0, 3])
    log := [] }

/-- An example heap for the matching test: the object 2 has an empty identifier
and the name `X`, the object 3 has the identifier `7` and the same name. -/
def exNames : Heap := fun p =>
  match p with
  | 2 => exObject "" "X" false []
  | 3 => exObject "7" "X" false []
  | _ => exObject "" "" false []

/-- The example state in which the fetched `P` has an empty child list. -/
def exNoChildren : State :=
  { m_RootItem := exState.m_RootItem
    heap := Function.update exHeap 1 (exObject "p" "P" true [])
    log := [] }

/-- A newly constructed model over `exUnfetched`: the synthetic root has no child. -/
def exEmpty : State := { m_RootItem := ctkXnatTreeItem.mk 0 [], heap := exUnfetched, log := [] }

/-- The state reached from a new model over `exHeap` by `addDataModel(1)` followed
by `addChildNode` of the object 2 under the fetched object 1. -/
def exAddedFetched : State :=
  { m_RootItem := ctkXnatTreeItem.mk 0 [ctkXnatTreeItem.mk 1 [ctkXnatTreeItem.leaf 2]]
    heap := exHeap
    log := [Event.beginInsertRows exP 0 1, Event.appendChild exP 2, Event.endInsertRows] }

end XnatTree

/-!
# ctkDICOMTableManager: the wiring of the patients, studies and series tables

A shallow embedding of `Libs/DICOM/Widgets/ctkDICOMTableManager.cpp`, as far as
the automatic selection of series goes: the flag `m_AutoSelectSeries`, the
selection modes of the three table views and the signal-slot connections.  The
query table names and the display density set by `init` touch none of these and
are left out.
-/

namespace DicomTable

/-- The objects between which the table manager makes connections. -/
inductive Widget where
  | patientsTable
  | studiesTable
  | seriesTable
  | tableManager
deriving DecidableEq

/-- A signal-slot connection of Qt: sender, normalised signature of the signal,
receiver and normalised signature of the slot (or signal) it is connected to. -/
structure Connection where
  sender : Widget
  signal : String
  receiver : Widget
  method : String
deriving DecidableEq

/-- Qt's `QObject::connect(sender, signal, receiver, method)` with the default
connection type: one more connection, also when an equal one exists already. -/
def connect (connections : List Connection) (sender : Widget) (signal : String)
    (receiver : Widget) (method : String) : List Connection :=
  connections ++ [{ sender := sender, signal := signal, receiver := receiver, method := method }]

/-- Qt's `QObject::disconnect(sender, signal, receiver, method)`: every connection
of the signal to the method is removed. -/
def disconnect (connections : List Connection) (sender : Widget) (signal : String)
    (receiver : Widget) (method : String) : List Connection :=
  connections.filter (fun c =>
    decide (c ≠ { sender := sender, signal := signal, receiver := receiver, method := method }))

/-- Qt's `QAbstractItemView::SingleSelection`. -/
def SingleSelection : Int := 1

/-- What a new table manager gets from outside this file: the connections made
by `setupUi` (generated from the form `ctkDICOMTableManager.ui`, which is not
among the sources at hand) and the selection modes the three table views start
with. -/
structure UiSetup where
  connections : List Connection
  patientsSelectionMode : Int
  studiesSelectionMode : Int
  seriesSelectionMode : Int

/-- The table manager: the two flags of `ctkDICOMTableManagerPrivate`, the
selection modes of the three table views, the connections in force and the
current selection of the series table. -/
structure ctkDICOMTableManager where
  m_DynamicTableLayout : Bool
  m_AutoSelectSeries : Bool
  patientsSelectionMode : Int
  studiesSelectionMode : Int
  seriesSelectionMode : Int
  connections : List Connection
  seriesSelection : List String

/-- The connections made by `ctkDICOMTableManagerPrivate::init` (lines 88-120),
all of them from a table to the table manager itself. -/
def initConnections (connections : List Connection) : List Connection :=
  let c1 := connect connections Widget.patientsTable "selectionChanged(QItemSelection,QItemSelection)"
    Widget.tableManager "patientsSelectionChanged(QItemSelection,QItemSelection)"
  let c2 := connect c1 Widget.patientsTable "selectionChanged(QStringList)"
    Widget.tableManager "patientsSelectionChanged(QStringList)"
  let c3 := connect c2 Widget.studiesTable "selectionChanged(QItemSelection,QItemSelection)"
    Widget.tableManager "studiesSelectionChanged(QItemSelection,QItemSelection)"
  let c4 := connect c3 Widget.studiesTable "selectionChanged(QStringList)"
    Widget.tableManager "studiesSelectionChanged(QStringList)"
  let c5 := connect c4 Widget.seriesTable "selectionChanged(QItemSelection,QItemSelection)"
    Widget.tableManager "seriesSelectionChanged(QItemSelection,QItemSelection)"
  let c6 := connect c5 Widget.seriesTable "selectionChanged(QStringList)"
    Widget.tableManager "seriesSelectionChanged(QStringList)"
  let c7 := connect c6 Widget.patientsTable "doubleClicked(QModelIndex)"
    Widget.tableManager "patientsDoubleClicked(QModelIndex)"
  let c8 := connect c7 Widget.studiesTable "doubleClicked(QModelIndex)"
    Widget.tableManager "studiesDoubleClicked(QModelIndex)"
  let c9 := connect c8 Widget.seriesTable "doubleClicked(QModelIndex)"
    Widget.tableManager "seriesDoubleClicked(QModelIndex)"
  let c10 := connect c9 Widget.patientsTable "customContextMenuRequested(QPoint)"
    Widget.tableManager "patientsRightClicked(QPoint)"
  let c11 := connect c10 Widget.studiesTable "customContextMenuRequested(QPoint)"
    Widget.tableManager "studiesRightClicked(QPoint)"
  connect c11 Widget.seriesTable "customContextMenuRequested(QPoint)"
    Widget.tableManager "seriesRightClicked(QPoint)"

/-- The constructor `ctkDICOMTableManager::ctkDICOMTableManager(parent)` (lines
137-143): the private part starts with `m_DynamicTableLayout(false)` and
`m_AutoSelectSeries(true)` (lines 57-63), then `init` runs `setupUi` and makes its
connections. -/
def construct (ui : UiSetup) : ctkDICOMTableManager :=
  { m_DynamicTableLayout := false
    m_AutoSelectSeries := true
    patientsSelectionMode := ui.patientsSelectionMode
    studiesSelectionMode := ui.studiesSelectionMode
    seriesSelectionMode := ui.seriesSelectionMode
    connections := initConnections ui.connections
    seriesSelection := [] }

/-- The getter `ctkDICOMTableManager::selectionMode()` (lines 353-365): the mode of
the patients table, with a warning when the three tables disagree. -/
def selectionMode (s : ctkDICOMTableManager) : Int := s.patientsSelectionMode

/-- The getter `ctkDICOMTableManager::autoSelectSeries()` (lines 307-311). -/
def autoSelectSeries (s : ctkDICOMTableManager) : Bool := s.m_AutoSelectSeries

/-- The setter `ctkDICOMTableManager::setAutoSelectSeries(autoSelect)` (lines
270-304). -/
def setAutoSelectSeries (autoSelect : Bool) (s : ctkDICOMTableManager) : ctkDICOMTableManager :=
  if autoSelect = s.m_AutoSelectSeries then s
  else if autoSelect then
    if selectionMode s = SingleSelection then
      { s with
        connections := connect s.connections Widget.studiesTable "selectionChanged(QStringList)"
          Widget.seriesTable "selectFirst()"
        m_AutoSelectSeries := autoSelect }
    else
      { s with
        connections := connect s.connections Widget.studiesTable "selectionChanged(QStringList)"
          Widget.seriesTable "selectAll()"
        m_AutoSelectSeries := autoSelect }
  else
    { s with
      connections := disconnect
        (disconnect s.connections Widget.studiesTable "selectionChanged(QStringList)"
          Widget.seriesTable "selectAll()")
        Widget.studiesTable "selectionChanged(QStringList)" Widget.seriesTable "selectFirst()"
      seriesSelection := []
      m_AutoSelectSeries := autoSelect }

/-- The setter `ctkDICOMTableManager::setSelectionMode(mode)` (lines 314-350). -/
def setSelectionMode (mode : Int) (s : ctkDICOMTableManager) : ctkDICOMTableManager :=
  if mode = selectionMode s then s
  else
    let disconnected := disconnect
      (disconnect s.connections Widget.patientsTable "selectionChanged(QStringList)"
        Widget.studiesTable "selectAll()")
      Widget.patientsTable "selectionChanged(QStringList)" Widget.studiesTable "selectFirst()"
    let s1 : ctkDICOMTableManager :=
      { s with
        patientsSelectionMode := mode
        studiesSelectionMode := mode
        seriesSelectionMode := mode
        connections :=
          if mode = SingleSelection then
            connect disconnected Widget.patientsTable "selectionChanged(QStringList)"
              Widget.studiesTable "selectFirst()"
          else
            connect disconnected Widget.patientsTable "selectionChanged(QStringList)"
              Widget.studiesTable "selectAll()" }
    if autoSelectSeries s1 then setAutoSelectSeries true (setAutoSelectSeries false s1)
    else s1

/-- The connection from the studies table's `selectionChanged(QStringList)` to the
slot `method` of the series table. -/
def studiesToSeries (method : String) : Connection :=
  { sender := Widget.studiesTable, signal := "selectionChanged(QStringList)",
    receiver := Widget.seriesTable, method := method }

/-- Automatic series selection is wired in a list of connections for a selection
mode: the studies table's selection signal is connected exactly once to the
series table, to `selectFirst()` in single selection mode and to `selectAll()`
otherwise, and not at all to the other of the two slots. -/
def Wired (connections : List Connection) (mode : Int) : Prop :=
  if mode = SingleSelection then
    connections.count (studiesToSeries "selectFirst()") = 1 ∧
    connections.count (studiesToSeries "selectAll()") = 0
  else
    connections.count (studiesToSeries "selectFirst()") = 0 ∧
    connections.count (studiesToSeries "selectAll()") = 1

/-- Neither of the two automatic selection slots of the series table is connected
to the studies table's selection signal. -/
def Unwired (connections : List Connection) : Prop :=
  connections.count (studiesToSeries "selectFirst()") = 0 ∧
  connections.count (studiesToSeries "selectAll()") = 0

/-- The flag and the wiring agree: with the flag set the wiring fits the
selection mode, with the flag cleared there is none. -/
def Agree (s : ctkDICOMTableManager) : Prop :=
  (s.m_AutoSelectSeries = true → Wired s.connections (selectionMode s)) ∧
  (s.m_AutoSelectSeries = false → Unwired s.connections)

/-- The states reached from a newly constructed table manager by calls of
`setAutoSelectSeries` and `setSelectionMode`. -/
inductive Reachable (ui : UiSetup) : ctkDICOMTableManager → Prop where
  | construct : Reachable ui (construct ui)
  | setAutoSelectSeries (s : ctkDICOMTableManager) (autoSelect : Bool) :
      Reachable ui s → Reachable ui (setAutoSelectSeries autoSelect s)
  | setSelectionMode (s : ctkDICOMTableManager) (mode : Int) :
      Reachable ui s → Reachable ui (setSelectionMode mode s)

/-- An example form: the tables start in extended selection mode (3) and the form
connects the studies table's selection signal to `selectAll()` of the series
table. -/
def exUi : UiSetup :=
  { connections := [studiesToSeries "selectAll()"]
    patientsSelectionMode := 3
    studiesSelectionMode := 3
    seriesSelectionMode := 3 }

end DicomTable

namespace XnatTree

/-! ## Items, paths and the scan -/

@[simp] theorem xnatObject_mk (o : ObjPtr) (cs : List ctkXnatTreeItem) :
    (ctkXnatTreeItem.mk o cs).xnatObject = o := rfl

@[simp] theorem childItems_mk (o : ObjPtr) (cs : List ctkXnatTreeItem) :
    (ctkXnatTreeItem.mk o cs).childItems = cs := rfl

theorem mk_eta (t : ctkXnatTreeItem) : ctkXnatTreeItem.mk t.xnatObject t.childItems = t := by
  cases t; rfl

theorem set_of_getElem? {α : Type} : ∀ (l : List α) (i : Nat) (a : α), l[i]? = some a → l.set i a = l := by
  intro l
  induction l with
  | nil => intro i a h; simp at h
  | cons x xs ih =>
    intro i a h
    cases i with
    | zero => simp at h; simp [h]
    | succ j => simp at h; simp [ih j a h]

theorem itemAtPath_replaceAtPath (new : ctkXnatTreeItem) :
    ∀ (p : List Nat) (t item : ctkXnatTreeItem), t.itemAtPath p = some item →
      (t.replaceAtPath p new).itemAtPath p = some new := by
  intro p
  induction p with
  | nil => intro t item _; rfl
  | cons r rs ih =>
    intro t item h
    cases t with
    | mk o cs =>
      simp only [ctkXnatTreeItem.itemAtPath, childItems_mk] at h
      cases hc : cs[r]? with
      | none => simp [hc] at h
      | some c =>
        simp only [hc] at h
        have hr : r < cs.length := by
          rcases List.getElem?_eq_some.mp hc with ⟨hlt, _⟩
          exact hlt
        simp only [ctkXnatTreeItem.replaceAtPath, childItems_mk, hc, ctkXnatTreeItem.itemAtPath,
          List.getElem?_set_self hr]
        exact ih c item h

theorem replaceAtPath_self :
    ∀ (p : List Nat) (t item : ctkXnatTreeItem), t.itemAtPath p = some item →
      t.replaceAtPath p item = t := by
  intro p
  induction p with
  | nil => intro t item h; simp [ctkXnatTreeItem.itemAtPath] at h; simp [ctkXnatTreeItem.replaceAtPath, h]
  | cons r rs ih =>
    intro t item h
    cases t with
    | mk o cs =>
      simp only [ctkXnatTreeItem.itemAtPath, childItems_mk] at h
      cases hc : cs[r]? with
      | none => simp [hc] at h
      | some c =>
        simp only [hc] at h
        simp only [ctkXnatTreeItem.replaceAtPath, childItems_mk, hc, ih c item h, xnatObject_mk,
          set_of_getElem? cs r c hc]

theorem scan_eq_scanList (h : Heap) (child : ObjPtr) (item : ctkXnatTreeItem) :
    ∀ (remaining i : Nat), i + remaining ≤ item.childCount →
      scan h child item i remaining = scanList h child i ((item.childItems.drop i).take remaining) := by
  intro remaining
  induction remaining with
  | zero => intro i _; simp [scan, scanList]
  | succ n ih =>
    intro i hle
    have hi : i < item.childItems.length := by
      simp only [ctkXnatTreeItem.childCount] at hle; omega
    have hchild : item.child (i : Int) = some item.childItems[i] := by
      simp [ctkXnatTreeItem.child, hi]
    rw [List.drop_eq_getElem_cons hi]
    simp only [scan, hchild, List.take_succ_cons, scanList]
    rw [ih (i + 1) (by omega)]

theorem scan_all (h : Heap) (child : ObjPtr) (item : ctkXnatTreeItem) :
    scan h child item 0 item.childCount = scanList h child 0 item.childItems := by
  rw [scan_eq_scanList h child item item.childCount 0 (by omega)]
  simp [ctkXnatTreeItem.childCount]

theorem scanList_present (h : Heap) (y : ObjPtr) (hy : y ≠ 0) (extra : List ctkXnatTreeItem) :
    ∀ (cs : List ctkXnatTreeItem) (i : Nat),
      (∀ c ∈ cs, c.xnatObject ≠ 0 ∧ (h c.xnatObject).exists_ = true) →
      (∃ c ∈ cs, sameObject (h c.xnatObject) (h y) = true) →
      scanList h y i (cs ++ extra) = ScanOutcome.present := by
  intro cs
  induction cs with
  | nil => intro i _ hm; simp at hm
  | cons c cs ih =>
    intro i hlive hm
    have hc := hlive c (List.mem_cons_self c cs)
    by_cases hs : sameObject (h c.xnatObject) (h y) = true
    · simp [scanList, hc.1, hc.2, hy, hs]
    · have hrest : ∃ c' ∈ cs, sameObject (h c'.xnatObject) (h y) = true := by
        rcases hm with ⟨c', hmem, hsame⟩
        rcases List.mem_cons.mp hmem with heq | hin
        · subst heq; exact absurd hsame hs
        · exact ⟨c', hin, hsame⟩
      simp only [List.cons_append, scanList, hc.1, hc.2, hy, hs, if_false, Bool.not_true]
      exact ih (i + 1) (fun c' hc' => hlive c' (List.mem_cons_of_mem c hc')) hrest

theorem scanList_absent (h : Heap) (y : ObjPtr) (hy : y ≠ 0) :
    ∀ (cs : List ctkXnatTreeItem) (i : Nat),
      (∀ c ∈ cs, c.xnatObject ≠ 0 ∧ (h c.xnatObject).exists_ = true) →
      (∀ c ∈ cs, sameObject (h c.xnatObject) (h y) = false) →
      scanList h y i cs = ScanOutcome.absent := by
  intro cs
  induction cs with
  | nil => intro i _ _; rfl
  | cons c cs ih =>
    intro i hlive hno
    have hc := hlive c (List.mem_cons_self c cs)
    have hs := hno c (List.mem_cons_self c cs)
    simp only [scanList, hc.1, hc.2, hy, hs, if_false, Bool.not_true]
    exact ih (i + 1) (fun c' hc' => hlive c' (List.mem_cons_of_mem c hc'))
      (fun c' hc' => hno c' (List.mem_cons_of_mem c hc'))

theorem refreshChild_present (parent : QModelIndex) (o y : ObjPtr) (st : Loop)
    (hn : st.numChildren = st.item.childCount)
    (hs : scanList st.heap y 0 st.item.childItems = ScanOutcome.present) :
    refreshChild parent o st y = Except.ok st := by
  unfold refreshChild
  rw [hn, scan_all, hs]

theorem refreshChild_absent (parent : QModelIndex) (o y : ObjPtr) (st : Loop)
    (hn : st.numChildren = st.item.childCount)
    (hs : scanList st.heap y 0 st.item.childItems = ScanOutcome.absent) :
    refreshChild parent o st y = Except.ok
      { item := st.item.appendChild (ctkXnatTreeItem.leaf y)
        heap := st.heap
        numChildren := st.numChildren + 1
        log := st.log ++ [Event.beginInsertRows parent 0 (max 0 ((st.numChildren : Int) - 1)),
                 Event.appendChild parent y, Event.endInsertRows] } := by
  unfold refreshChild
  rw [hn, scan_all, hs]

theorem reconcile_present (parent : QModelIndex) (o : ObjPtr) (st : Loop)
    (hn : st.numChildren = st.item.childCount) :
    ∀ (ys : List ObjPtr),
      (∀ y ∈ ys, scanList st.heap y 0 st.item.childItems = ScanOutcome.present) →
      reconcile parent o ys st = Except.ok st := by
  intro ys
  induction ys with
  | nil => intro _; rfl
  | cons y ys ih =>
    intro hall
    simp only [reconcile, refreshChild_present parent o y st hn (hall y (List.mem_cons_self y ys))]
    exact ih (fun y' hy' => hall y' (List.mem_cons_of_mem y hy'))

theorem reconcile_append (parent : QModelIndex) (o : ObjPtr) :
    ∀ (ys zs : List ObjPtr) (st st1 : Loop), reconcile parent o ys st = Except.ok st1 →
      reconcile parent o (ys ++ zs) st = reconcile parent o zs st1 := by
  intro ys
  induction ys with
  | nil => intro zs st st1 h; simp [reconcile] at h; simp [h]
  | cons y ys ih =>
    intro zs st st1 h
    simp only [reconcile, List.cons_append] at h ⊢
    cases hc : refreshChild parent o st y with
    | error f => simp [hc] at h
    | ok st2 =>
      simp only [hc] at h ⊢
      exact ih zs st2 st1 h

/-- The reconciliation of a node whose children all exist, when the server list
holds exactly one child `x` that matches none of them. -/
theorem reconcile_one_new (parent : QModelIndex) (o : ObjPtr) (st : Loop) (pre post : List ObjPtr)
    (x : ObjPtr) (hn : st.numChildren = st.item.childCount)
    (hnull : ∀ y ∈ pre ++ x :: post, y ≠ 0)
    (hlive : ∀ c ∈ st.item.childItems, c.xnatObject ≠ 0 ∧ (st.heap c.xnatObject).exists_ = true)
    (hmatched : ∀ y ∈ pre ++ post, ∃ c ∈ st.item.childItems,
      sameObject (st.heap c.xnatObject) (st.heap y) = true)
    (hnew : ∀ c ∈ st.item.childItems, sameObject (st.heap c.xnatObject) (st.heap x) = false) :
    reconcile parent o (pre ++ x :: post) st = Except.ok
      { item := st.item.appendChild (ctkXnatTreeItem.leaf x)
        heap := st.heap
        numChildren := st.numChildren + 1
        log := st.log ++ [Event.beginInsertRows parent 0 (max 0 ((st.numChildren : Int) - 1)),
                 Event.appendChild parent x, Event.endInsertRows] } := by
  have hpre : reconcile parent o pre st = Except.ok st := by
    apply reconcile_present parent o st hn
    intro y hy
    have := scanList_present st.heap y (hnull y (by simp [hy])) [] st.item.childItems 0 hlive
      (hmatched y (by simp [hy]))
    simpa using this
  rw [reconcile_append parent o pre (x :: post) st st hpre]
  have hx := scanList_absent st.heap x (hnull x (by simp)) st.item.childItems 0 hlive hnew
  simp only [reconcile, refreshChild_absent parent o x st hn hx]
  apply reconcile_present
  · simp [ctkXnatTreeItem.appendChild, ctkXnatTreeItem.childCount, hn]
  · intro y hy
    simp only [ctkXnatTreeItem.appendChild, childItems_mk]
    exact scanList_present st.heap y (hnull y (by simp [hy])) _ st.item.childItems 0 hlive
      (hmatched y (by simp [hy]))

theorem refreshItem_xnatObject (fetch : Fetch) (fuel : Nat) (parent : QModelIndex)
    (item : ctkXnatTreeItem) (h : Heap) (r : Refreshed)
    (hr : refreshItem fetch fuel parent item h = Except.ok r) : r.1.xnatObject = item.xnatObject := by
  cases fuel with
  | zero => simp [refreshItem] at hr
  | succ n =>
    simp only [refreshItem] at hr
    split at hr
    · simp at hr; rw [← hr]
    · split at hr
      · simp at hr
      · split at hr
        · simp at hr; rw [← hr]
        · split at hr
          · simp at hr
          · split at hr
            · simp at hr
            · simp at hr; rw [← hr]; rfl

theorem refreshRows_map (recurse : QModelIndex → ctkXnatTreeItem → Heap → Except Fault Refreshed)
    (parent : QModelIndex)
    (hrec : ∀ idx c h r, recurse idx c h = Except.ok r → r.1.xnatObject = c.xnatObject) :
    ∀ (cs : List ctkXnatTreeItem) (i : Nat) (h : Heap) (r : List ctkXnatTreeItem × Heap × List Event),
      refreshRows recurse parent i cs h = Except.ok r →
      r.1.map ctkXnatTreeItem.xnatObject = cs.map ctkXnatTreeItem.xnatObject := by
  intro cs
  induction cs with
  | nil => intro i h r hr; simp [refreshRows] at hr; simp [← hr]
  | cons c cs ih =>
    intro i h r hr
    simp only [refreshRows] at hr
    cases h1 : recurse (childIndex parent i) c h with
    | error f => simp [h1] at hr
    | ok r1 =>
      obtain ⟨c1, hp1, l1⟩ := r1
      simp only [h1] at hr
      cases h2 : refreshRows recurse parent (i + 1) cs hp1 with
      | error f => simp [h2] at hr
      | ok r2 =>
        obtain ⟨cs1, hp2, l2⟩ := r2
        simp only [h2] at hr
        simp at hr
        rw [← hr]
        simp only [List.map_cons]
        rw [ih (i + 1) hp1 _ h2, hrec _ _ _ _ h1]

/-! ## The shape of a refresh -/

theorem itemAt_eq_some (s : State) (index : QModelIndex) (item : ctkXnatTreeItem) :
    itemAt s index = some item ↔
      ∃ p, index.internalPointer = some p ∧ s.m_RootItem.itemAtPath p = some item := by
  unfold itemAt
  cases index.internalPointer with
  | none => simp
  | some p => simp

/-- What `refreshItem` does on a fetched item once the outcome of the
reconciliation loop is known. -/
theorem refreshItem_fetched (fetch : Fetch) (fuel : Nat) (parent : QModelIndex)
    (item : ctkXnatTreeItem) (h : Heap) (st : Loop)
    (hvalid : parent.isValid = true) (hobj : item.xnatObject ≠ 0)
    (hfetched : (h item.xnatObject).isFetched = true)
    (hrec : reconcile parent item.xnatObject ((fetch item.xnatObject true h) item.xnatObject).children
      { item := item, heap := fetch item.xnatObject true h, numChildren := rowCountOf parent item,
        log := [Event.fetch item.xnatObject true (h item.xnatObject).isFetched] } = Except.ok st) :
    refreshItem fetch (fuel + 1) parent item h =
      match refreshRows (refreshItem fetch fuel) parent 0
          (st.item.childItems.take (rowCountOf parent st.item)) st.heap with
      | Except.error f => Except.error f
      | Except.ok (cs, h2, l) =>
        Except.ok (ctkXnatTreeItem.mk item.xnatObject
          (cs ++ st.item.childItems.drop (rowCountOf parent st.item)), h2, st.log ++ l) := by
  rw [hfetched] at hrec
  simp only [refreshItem, hvalid, hobj, hfetched, hrec, Bool.not_true, Bool.false_eq_true, if_false]

theorem refreshItem_children (fetch : Fetch) (fuel : Nat) (parent : QModelIndex)
    (item : ctkXnatTreeItem) (h : Heap) (st : Loop) (r : Refreshed)
    (hvalid : parent.isValid = true) (hobj : item.xnatObject ≠ 0)
    (hfetched : (h item.xnatObject).isFetched = true)
    (hrec : reconcile parent item.xnatObject ((fetch item.xnatObject true h) item.xnatObject).children
      { item := item, heap := fetch item.xnatObject true h, numChildren := rowCountOf parent item,
        log := [Event.fetch item.xnatObject true (h item.xnatObject).isFetched] } = Except.ok st)
    (hr : refreshItem fetch fuel parent item h = Except.ok r) :
    r.1.childItems.map ctkXnatTreeItem.xnatObject =
      st.item.childItems.map ctkXnatTreeItem.xnatObject := by
  cases fuel with
  | zero => simp [refreshItem] at hr
  | succ n =>
    rw [refreshItem_fetched fetch n parent item h st hvalid hobj hfetched hrec] at hr
    cases hrows : refreshRows (refreshItem fetch n) parent 0
        (st.item.childItems.take (rowCountOf parent st.item)) st.heap with
    | error f => simp [hrows] at hr
    | ok r2 =>
      obtain ⟨cs, h2, l⟩ := r2
      simp only [hrows] at hr
      simp at hr
      rw [← hr]
      have hm := refreshRows_map (refreshItem fetch n) parent
        (fun idx c h r => refreshItem_xnatObject fetch n idx c h r) _ 0 st.heap _ hrows
      simp only [childItems_mk, List.map_append]
      simp only at hm
      rw [hm, ← List.map_append, List.take_append_drop]

/-- The shape of a successful `refresh` at a valid address. -/
theorem refresh_ok (fetch : Fetch) (fuel : Nat) (parent : QModelIndex) (s s1 : State)
    (item : ctkXnatTreeItem) (hvalid : parent.isValid = true) (hitem : itemAt s parent = some item)
    (hr : refresh fetch fuel parent s = Except.ok s1) :
    ∃ r, refreshItem fetch fuel parent item s.heap = Except.ok r ∧
      itemAt s1 parent = some r.1 ∧ s1.heap = r.2.1 ∧ s1.log = s.log ++ r.2.2 ∧
      ∀ p, parent.internalPointer = some p → s1.m_RootItem = s.m_RootItem.replaceAtPath p r.1 := by
  rcases (itemAt_eq_some s parent item).mp hitem with ⟨p, hp, hpath⟩
  simp only [refresh, hvalid, hp, hpath, Bool.not_true] at hr
  cases hri : refreshItem fetch fuel parent item s.heap with
  | error f => simp [hri] at hr
  | ok r =>
    obtain ⟨item1, h1, l⟩ := r
    simp only [hri] at hr
    simp at hr
    refine ⟨(item1, h1, l), rfl, ?_, ?_, ?_, ?_⟩
    · rw [← hr]
      simp only [itemAt, hp]
      exact itemAtPath_replaceAtPath item1 p s.m_RootItem item hpath
    · rw [← hr]
    · rw [← hr]
    · intro p1 hp1
      rw [hp] at hp1
      cases hp1
      rw [← hr]

/-- When `refreshItem` succeeds, so does `refresh`. -/
theorem refresh_of_refreshItem (fetch : Fetch) (fuel : Nat) (parent : QModelIndex) (s : State)
    (item : ctkXnatTreeItem) (r : Refreshed) (hitem : itemAt s parent = some item)
    (hr : refreshItem fetch fuel parent item s.heap = Except.ok r) :
    ∃ s1, refresh fetch fuel parent s = Except.ok s1 := by
  rcases (itemAt_eq_some s parent item).mp hitem with ⟨p, hp, hpath⟩
  by_cases hvalid : parent.isValid = true
  · obtain ⟨item1, h1, l⟩ := r
    simp only [refresh, hvalid, hp, hpath, hr, Bool.not_true]
    exact ⟨_, rfl⟩
  · simp only [refresh, hvalid]
    exact ⟨_, rfl⟩

/-- The value `rowCountOf` is what `rowCount` returns at a resolved valid address. -/
theorem rowCount_eq_rowCountOf (s : State) (parent : QModelIndex) (item : ctkXnatTreeItem)
    (hvalid : parent.isValid = true) (hitem : itemAt s parent = some item) :
    rowCount s parent = Except.ok ((rowCountOf parent item : Nat) : Int) := by
  unfold rowCount rowCountOf
  by_cases hc : parent.column > 0
  · simp [hc]
  · simp [hc, hvalid, hitem]

/-- The address `childIndex parent i` is what `index(i, 0, parent)` returns for a
row `i` of a resolved valid parent. -/
theorem index_eq_childIndex (s : State) (parent : QModelIndex) (item : ctkXnatTreeItem) (i : Nat)
    (hvalid : parent.isValid = true) (hitem : itemAt s parent = some item)
    (hi : i < rowCountOf parent item) :
    index s i 0 parent = Except.ok (childIndex parent i) := by
  rcases (itemAt_eq_some s parent item).mp hitem with ⟨p, hp, hpath⟩
  have hrc := rowCount_eq_rowCountOf s parent item hvalid hitem
  have hlt : i < item.childItems.length := by
    unfold rowCountOf at hi
    split at hi
    · omega
    · exact hi
  have hchild : item.child (i : Int) = some item.childItems[i] := by
    simp [ctkXnatTreeItem.child, hlt]
  have hneg : ¬ ((i : Int) < 0) := by omega
  simp [index, hasIndex, hrc, columnCount, hi, hvalid, hp, hpath, hchild, childIndex, hneg]

/-! ## Termination of the recursion -/

theorem scanList_cases (h : Heap) (y : ObjPtr) (hy : y ≠ 0) :
    ∀ (cs : List ctkXnatTreeItem) (i : Nat), (∀ c ∈ cs, c.xnatObject ≠ 0) →
      scanList h y i cs = ScanOutcome.present ∨ scanList h y i cs = ScanOutcome.absent ∨
      ∃ j c, c ∈ cs ∧ scanList h y i cs = ScanOutcome.removed j c.xnatObject := by
  intro cs
  induction cs with
  | nil => intro i _; right; left; rfl
  | cons c cs ih =>
    intro i hnn
    have hc := hnn c (List.mem_cons_self c cs)
    by_cases he : (h c.xnatObject).exists_ = true
    · by_cases hs : sameObject (h c.xnatObject) (h y) = true
      · left; simp [scanList, hc, he, hy, hs]
      · simp only [scanList, hc, he, hy, hs, if_false, Bool.not_true]
        rcases ih (i + 1) (fun c' hc' => hnn c' (List.mem_cons_of_mem c hc')) with hp | ha | ⟨j, c', hm, hr⟩
        · left; exact hp
        · right; left; exact ha
        · right; right; exact ⟨j, c', List.mem_cons_of_mem c hm, hr⟩
    · right; right
      refine ⟨i, c, List.mem_cons_self c cs, ?_⟩
      simp [scanList, hc, he]

theorem refreshChild_ok (Q : ctkXnatTreeItem → Prop) (hQ : ∀ c, Q c → c.xnatObject ≠ 0)
    (parent : QModelIndex) (o y : ObjPtr) (st : Loop) (hy : y ≠ 0) (hleaf : Q (ctkXnatTreeItem.leaf y))
    (hn : st.numChildren ≤ st.item.childCount) (hall : ∀ c ∈ st.item.childItems, Q c) :
    ∃ st1, refreshChild parent o st y = Except.ok st1 ∧ st1.numChildren ≤ st1.item.childCount ∧
      (∀ c ∈ st1.item.childItems, Q c) ∧ st1.item.xnatObject = st.item.xnatObject := by
  unfold refreshChild
  rw [scan_eq_scanList st.heap y st.item st.numChildren 0 (by omega)]
  simp only [List.drop_zero]
  have hnn : ∀ c ∈ st.item.childItems.take st.numChildren, c.xnatObject ≠ 0 :=
    fun c hc => hQ c (hall c (List.mem_of_mem_take hc))
  rcases scanList_cases st.heap y hy _ 0 hnn with hp | ha | ⟨j, c, hm, hr⟩
  · rw [hp]; exact ⟨st, rfl, hn, hall, rfl⟩
  · rw [ha]
    refine ⟨_, rfl, ?_, ?_, ?_⟩
    · simp only [ctkXnatTreeItem.appendChild, ctkXnatTreeItem.childCount, childItems_mk,
        List.length_append, List.length_singleton] at hn ⊢
      omega
    · intro c hc
      simp only [ctkXnatTreeItem.appendChild, childItems_mk, List.mem_append,
        List.mem_singleton] at hc
      rcases hc with hc | hc
      · exact hall c hc
      · rw [hc]; exact hleaf
    · rfl
  · rw [hr]
    refine ⟨_, rfl, ?_, ?_, ?_⟩
    · have hpos : 0 < st.numChildren := by
        cases hnum : st.numChildren with
        | zero => rw [hnum] at hm; simp at hm
        | succ k => omega
      have hmem : c ∈ st.item.childItems := List.mem_of_mem_take hm
      have hlen := List.length_eraseP_of_mem (p := fun c' : ctkXnatTreeItem => c'.xnatObject == c.xnatObject)
        hmem (by simp)
      simp only [ctkXnatTreeItem.remove, ctkXnatTreeItem.childCount, childItems_mk] at hn ⊢
      rw [hlen]
      omega
    · intro c' hc'
      simp only [ctkXnatTreeItem.remove, childItems_mk] at hc'
      exact hall c' (List.mem_of_mem_eraseP hc')
    · rfl

theorem reconcile_ok (Q : ctkXnatTreeItem → Prop) (hQ : ∀ c, Q c → c.xnatObject ≠ 0)
    (parent : QModelIndex) (o : ObjPtr) :
    ∀ (ys : List ObjPtr) (st : Loop), (∀ y ∈ ys, y ≠ 0 ∧ Q (ctkXnatTreeItem.leaf y)) →
      st.numChildren ≤ st.item.childCount → (∀ c ∈ st.item.childItems, Q c) →
      ∃ st1, reconcile parent o ys st = Except.ok st1 ∧ st1.numChildren ≤ st1.item.childCount ∧
        (∀ c ∈ st1.item.childItems, Q c) ∧ st1.item.xnatObject = st.item.xnatObject := by
  intro ys
  induction ys with
  | nil => intro st _ hn hall; exact ⟨st, rfl, hn, hall, rfl⟩
  | cons y ys ih =>
    intro st hys hn hall
    have hy := hys y (List.mem_cons_self y ys)
    rcases refreshChild_ok Q hQ parent o y st hy.1 hy.2 hn hall with ⟨st1, h1, hn1, hall1, ho1⟩
    rcases ih st1 (fun y' hy' => hys y' (List.mem_cons_of_mem y hy')) hn1 hall1 with
      ⟨st2, h2, hn2, hall2, ho2⟩
    refine ⟨st2, ?_, hn2, hall2, ho2.trans ho1⟩
    simp only [reconcile, h1]
    exact h2

theorem refreshRows_ok (recurse : QModelIndex → ctkXnatTreeItem → Heap → Except Fault Refreshed)
    (parent : QModelIndex) :
    ∀ (cs : List ctkXnatTreeItem) (i : Nat) (h : Heap),
      (∀ c ∈ cs, ∀ idx h1, ∃ r, recurse idx c h1 = Except.ok r) →
      ∃ r, refreshRows recurse parent i cs h = Except.ok r := by
  intro cs
  induction cs with
  | nil => intro i h _; exact ⟨_, rfl⟩
  | cons c cs ih =>
    intro i h hall
    rcases hall c (List.mem_cons_self c cs) (childIndex parent i) h with ⟨⟨c1, h1, l1⟩, hr1⟩
    rcases ih (i + 1) h1 (fun c' hc' => hall c' (List.mem_cons_of_mem c hc')) with ⟨⟨cs1, h2, l2⟩, hr2⟩
    exact ⟨(c1 :: cs1, h2, l1 ++ l2), by simp only [refreshRows, hr1, hr2]⟩

theorem depthBounded_leaf (rank : ObjPtr → Nat) (n : Nat) (y : ObjPtr) (hy : y ≠ 0)
    (hr : rank y < n) : DepthBounded rank n (ctkXnatTreeItem.leaf y) := by
  cases n with
  | zero => omega
  | succ m =>
    exact DepthBounded.mk m y [] hy (by omega) (by intro c hc; simp at hc)

theorem depthBounded_xnatObject (rank : ObjPtr → Nat) (n : Nat) (c : ctkXnatTreeItem)
    (hb : DepthBounded rank n c) : c.xnatObject ≠ 0 := by
  cases hb with
  | mk n o cs ho _ _ => exact ho

/-- With a levelled remote hierarchy, `refreshItem` returns whenever the fuel
covers the depth of the item. -/
theorem refreshItem_terminates (fetch : Fetch) (rank : ObjPtr → Nat) (hranked : Ranked fetch rank) :
    ∀ (n : Nat) (parent : QModelIndex) (item : ctkXnatTreeItem) (h : Heap),
      DepthBounded rank n item → ∃ r, refreshItem fetch n parent item h = Except.ok r := by
  intro n
  induction n with
  | zero => intro parent item h hb; cases hb
  | succ n ih =>
    intro parent item h hb
    cases hb with
    | mk _ o cs ho hrank hcs =>
      by_cases hvalid : parent.isValid = true
      · by_cases hf : (h o).isFetched = true
        · rcases reconcile_ok (DepthBounded rank n) (depthBounded_xnatObject rank n) parent o
            ((fetch o true h) o).children
            { item := ctkXnatTreeItem.mk o cs, heap := fetch o true h,
              numChildren := rowCountOf parent (ctkXnatTreeItem.mk o cs),
              log := [Event.fetch o true (h o).isFetched] }
            (fun y hy => ⟨(hranked o h y hy).1,
              depthBounded_leaf rank n y (hranked o h y hy).1 (by have := (hranked o h y hy).2; omega)⟩)
            (by simp only [rowCountOf]; split <;> simp)
            (by simpa using hcs) with ⟨st, hst, _, hall, _⟩
          have hrows := refreshRows_ok (refreshItem fetch n) parent
            (st.item.childItems.take (rowCountOf parent st.item)) 0 st.heap
            (fun c hc idx h1 => ih idx c h1 (hall c (List.mem_of_mem_take hc)))
          rcases hrows with ⟨⟨cs1, h2, l⟩, hrows⟩
          rw [refreshItem_fetched fetch n parent (ctkXnatTreeItem.mk o cs) h st hvalid
            (by simpa using ho) (by simpa using hf) (by simpa using hst)]
          simp only [hrows]
          exact ⟨_, rfl⟩
        · exact ⟨(ctkXnatTreeItem.mk o cs, h, []), by simp [refreshItem, hvalid, ho, hf]⟩
      · exact ⟨(ctkXnatTreeItem.mk o cs, h, []), by simp [refreshItem, hvalid]⟩

/-! ## A subtree in step with the server -/

theorem ranked_exServer (kids : ObjPtr → List ObjPtr) (dead : List ObjPtr) (rank : ObjPtr → Nat)
    (hk : ∀ o, ∀ c ∈ kids o, c ≠ 0 ∧ rank c < rank o) : Ranked (exServer kids dead) rank := by
  intro o h c hc
  simp only [exServer, if_true] at hc
  exact hk o c hc

theorem exItem_depthBounded : DepthBounded exRank 2 exItem :=
  DepthBounded.mk 1 1 _ (by decide) (by decide) (by
    intro c hc
    simp at hc
    rcases hc with rfl | rfl
    · exact DepthBounded.mk 0 2 [] (by decide) (by decide) (by intro c hc; simp at hc)
    · exact DepthBounded.mk 0 3 [] (by decide) (by decide) (by intro c hc; simp at hc))

/-- C3. Refresh of a fetched node whose presentation children all still exist,
when the server child list after the forced fetch holds exactly one child `x`
that matches no presentation child (every other server child matches one):
the refresh returns, and afterwards the presentation children are the previous
ones, in their order, followed by one new item wrapping `x` at the tail. -/
theorem refresh_adds_new_child_at_tail (fetch : Fetch) (s : State) (parent : QModelIndex)
    (item : ctkXnatTreeItem) (pre post : List ObjPtr) (x : ObjPtr) (rank : ObjPtr → Nat) (n : Nat)
    (hvalid : parent.isValid = true) (hcol : parent.column = 0)
    (hitem : itemAt s parent = some item) (hobj : item.xnatObject ≠ 0)
    (hfetched : (s.heap item.xnatObject).isFetched = true)
    (hserver : ((fetch item.xnatObject true s.heap) item.xnatObject).children = pre ++ x :: post)
    (hnull : ∀ y ∈ pre ++ x :: post, y ≠ 0)
    (hlive : ∀ c ∈ item.childItems, c.xnatObject ≠ 0 ∧
      ((fetch item.xnatObject true s.heap) c.xnatObject).exists_ = true)
    (hmatched : ∀ y ∈ pre ++ post, ∃ c ∈ item.childItems,
      sameObject ((fetch item.xnatObject true s.heap) c.xnatObject)
        ((fetch item.xnatObject true s.heap) y) = true)
    (hnew : ∀ c ∈ item.childItems,
      sameObject ((fetch item.xnatObject true s.heap) c.xnatObject)
        ((fetch item.xnatObject true s.heap) x) = false)
    (hranked : Ranked fetch rank) (hdepth : DepthBounded rank n item) :
    (∃ s1, refresh fetch n parent s = Except.ok s1 ∧
      presentationChildren s1 parent =
        some (item.childItems.map ctkXnatTreeItem.xnatObject ++ [x])) ∧
    (∀ fuel s1, refresh fetch fuel parent s = Except.ok s1 →
      presentationChildren s1 parent =
        some (item.childItems.map ctkXnatTreeItem.xnatObject ++ [x])) := by
  have hrec := reconcile_one_new parent item.xnatObject
    { item := item, heap := fetch item.xnatObject true s.heap, numChildren := rowCountOf parent item,
      log := [Event.fetch item.xnatObject true (s.heap item.xnatObject).isFetched] } pre post x
    (by simp [rowCountOf, hcol]) hnull hlive hmatched hnew
  rw [← hserver] at hrec
  have hpart : ∀ fuel s1, refresh fetch fuel parent s = Except.ok s1 →
      presentationChildren s1 parent =
        some (item.childItems.map ctkXnatTreeItem.xnatObject ++ [x]) := by
    intro fuel s1 hr
    rcases refresh_ok fetch fuel parent s s1 item hvalid hitem hr with ⟨r, hri, hat, _, _, _⟩
    have hch := refreshItem_children fetch fuel parent item s.heap _ r hvalid hobj hfetched hrec hri
    simp only [presentationChildren, hat, Option.map_some', hch]
    simp [ctkXnatTreeItem.appendChild, ctkXnatTreeItem.leaf]
  refine ⟨?_, hpart⟩
  rcases refreshItem_terminates fetch rank hranked n parent item s.heap hdepth with ⟨r, hr⟩
  rcases refresh_of_refreshItem fetch n parent s item r hitem hr with ⟨s1, hs1⟩
  exact ⟨s1, hs1, hpart n s1 hs1⟩

/-- An instance on the example data: the server reports `[A, C, B]` for `P` with the children `[A, B]`. -/
theorem refresh_adds_new_child_at_tail_witness :
    ∃ s1, refresh (exServer (fun o => if o = 1 then [2, 4, 3] else []) []) 2 exP exState = Except.ok s1 ∧
      presentationChildren s1 exP = some ([2, 3] ++ [4]) :=
  (refresh_adds_new_child_at_tail (exServer (fun o => if o = 1 then [2, 4, 3] else []) []) exState exP
    exItem [2] [3] 4 exRank 2 (by decide) (by decide) rfl (by decide) (by decide) (by rfl)
    (by decide) (by decide) (by decide) (by decide)
    (ranked_exServer _ _ _ (by
      intro o c hc
      by_cases ho : o = 1
      · subst ho
        simp at hc
        rcases hc with rfl | rfl | rfl <;> simp [exRank]
      · simp [ho] at hc))
    exItem_depthBounded).1

/-! ## Refresh: unchanged children, and which objects are fetched -/

theorem refreshChild_fetch_events (parent : QModelIndex) (o y : ObjPtr) (st st1 : Loop)
    (hr : refreshChild parent o st y = Except.ok st1) (p : ObjPtr) (f w : Bool)
    (he : Event.fetch p f w ∈ st1.log) : Event.fetch p f w ∈ st.log := by
  unfold refreshChild at hr
  split at hr
  · simp at hr
  · simp at hr; rw [← hr] at he; simpa using he
  · simp at hr; rw [← hr] at he; exact he
  · simp at hr; rw [← hr] at he; simpa using he

theorem reconcile_fetch_events (parent : QModelIndex) (o : ObjPtr) :
    ∀ (ys : List ObjPtr) (st st1 : Loop), reconcile parent o ys st = Except.ok st1 →
      ∀ (p : ObjPtr) (f w : Bool), Event.fetch p f w ∈ st1.log → Event.fetch p f w ∈ st.log := by
  intro ys
  induction ys with
  | nil => intro st st1 hr p f w he; simp [reconcile] at hr; rw [hr]; exact he
  | cons y ys ih =>
    intro st st1 hr p f w he
    simp only [reconcile] at hr
    cases hc : refreshChild parent o st y with
    | error e => simp [hc] at hr
    | ok st2 =>
      simp only [hc] at hr
      exact refreshChild_fetch_events parent o y st st2 hc p f w (ih st2 st1 hr p f w he)

theorem refreshRows_fetch_events
    (recurse : QModelIndex → ctkXnatTreeItem → Heap → Except Fault Refreshed) (parent : QModelIndex)
    (hrec : ∀ idx c h r, recurse idx c h = Except.ok r →
      ∀ (p : ObjPtr) (f w : Bool), Event.fetch p f w ∈ r.2.2 → w = true) :
    ∀ (cs : List ctkXnatTreeItem) (i : Nat) (h : Heap) (r : List ctkXnatTreeItem × Heap × List Event),
      refreshRows recurse parent i cs h = Except.ok r →
      ∀ (p : ObjPtr) (f w : Bool), Event.fetch p f w ∈ r.2.2 → w = true := by
  intro cs
  induction cs with
  | nil => intro i h r hr p f w he; simp [refreshRows] at hr; rw [← hr] at he; simp at he
  | cons c cs ih =>
    intro i h r hr p f w he
    simp only [refreshRows] at hr
    cases h1 : recurse (childIndex parent i) c h with
    | error e => simp [h1] at hr
    | ok r1 =>
      obtain ⟨c1, hp1, l1⟩ := r1
      simp only [h1] at hr
      cases h2 : refreshRows recurse parent (i + 1) cs hp1 with
      | error e => simp [h2] at hr
      | ok r2 =>
        obtain ⟨cs1, hp2, l2⟩ := r2
        simp only [h2] at hr
        simp at hr
        rw [← hr] at he
        simp only [List.mem_append] at he
        rcases he with he | he
        · exact hrec _ _ _ _ h1 p f w he
        · exact ih (i + 1) hp1 _ h2 p f w he

/-- Every `fetch` made by `refreshItem` is made on an object that is fetched at
that moment. -/
theorem refreshItem_fetch_events (fetch : Fetch) :
    ∀ (fuel : Nat) (parent : QModelIndex) (item : ctkXnatTreeItem) (h : Heap) (r : Refreshed),
      refreshItem fetch fuel parent item h = Except.ok r →
      ∀ (p : ObjPtr) (f w : Bool), Event.fetch p f w ∈ r.2.2 → w = true := by
  intro fuel
  induction fuel with
  | zero => intro parent item h r hr; simp [refreshItem] at hr
  | succ n ih =>
    intro parent item h r hr p f w he
    by_cases hvalid : parent.isValid = true
    · by_cases hobj : item.xnatObject = 0
      · simp [refreshItem, hvalid, hobj] at hr
      · by_cases hf : (h item.xnatObject).isFetched = true
        · cases hrec : reconcile parent item.xnatObject
              ((fetch item.xnatObject true h) item.xnatObject).children
              { item := item, heap := fetch item.xnatObject true h,
                numChildren := rowCountOf parent item,
                log := [Event.fetch item.xnatObject true (h item.xnatObject).isFetched] } with
          | error e =>
            rw [hf] at hrec
            simp [refreshItem, hvalid, hobj, hf, hrec] at hr
          | ok st =>
            rw [refreshItem_fetched fetch n parent item h st hvalid hobj hf hrec] at hr
            cases hrows : refreshRows (refreshItem fetch n) parent 0
                (st.item.childItems.take (rowCountOf parent st.item)) st.heap with
            | error e => simp [hrows] at hr
            | ok r2 =>
              obtain ⟨cs, h2, l⟩ := r2
              simp only [hrows] at hr
              simp at hr
              rw [← hr] at he
              simp only [List.mem_append] at he
              rcases he with he | he
              · have := reconcile_fetch_events parent item.xnatObject _ _ st hrec p f w he
                simp [hf] at this
                exact this.2.2
              · exact refreshRows_fetch_events (refreshItem fetch n) parent ih _ 0 st.heap _ hrows
                  p f w he
        · simp [refreshItem, hvalid, hobj, hf] at hr
          rw [← hr] at he
          simp at he
    · simp [refreshItem, hvalid] at hr
      rw [← hr] at he
      simp at he

/-- C5. Refresh calls `fetch` only on objects that are fetched when they are
visited: with a levelled remote hierarchy the refresh returns; every `fetch`
logged by any refresh, at any address, was made on an object whose `isFetched()`
was true at that moment; the refresh of an item whose object is not fetched
calls nothing and changes nothing; and so does the recursive call on a child
whose object is not fetched, which therefore reaches nothing below it. -/
theorem refresh_fetches_only_fetched (fetch : Fetch) (s : State) (parent : QModelIndex)
    (item : ctkXnatTreeItem) (rank : ObjPtr → Nat) (n : Nat)
    (hitem : itemAt s parent = some item) (hranked : Ranked fetch rank)
    (hdepth : DepthBounded rank n item) :
    (∃ s1, refresh fetch n parent s = Except.ok s1 ∧
      ∃ l, s1.log = s.log ++ l ∧ ∀ o force was, Event.fetch o force was ∈ l → was = true) ∧
    (∀ (address : QModelIndex) (fuel : Nat) (s1 : State),
      refresh fetch fuel address s = Except.ok s1 →
      ∃ l, s1.log = s.log ++ l ∧ ∀ o force was, Event.fetch o force was ∈ l → was = true) ∧
    ((s.heap item.xnatObject).isFetched = false → item.xnatObject ≠ 0 →
      ∀ fuel, refresh fetch (fuel + 1) parent s = Except.ok s) ∧
    (∀ (fuel : Nat) (address : QModelIndex) (c : ctkXnatTreeItem) (h : Heap),
      c.xnatObject ≠ 0 → (h c.xnatObject).isFetched = false →
      refreshItem fetch (fuel + 1) address c h = Except.ok (c, h, [])) := by
  have hpart : ∀ (address : QModelIndex) (fuel : Nat) (s1 : State),
      refresh fetch fuel address s = Except.ok s1 →
      ∃ l, s1.log = s.log ++ l ∧ ∀ o force was, Event.fetch o force was ∈ l → was = true := by
    intro address fuel s1 hr
    by_cases hvalid : address.isValid = true
    · cases hit : itemAt s address with
      | none =>
        simp only [refresh, hvalid, Bool.not_true] at hr
        simp only [itemAt] at hit
        cases hp : address.internalPointer with
        | none => simp [hp] at hr
        | some q =>
          simp only [hp] at hit hr
          simp [hit] at hr
      | some it =>
        rcases refresh_ok fetch fuel address s s1 it hvalid hit hr with ⟨r, hri, _, _, hlog, _⟩
        exact ⟨r.2.2, hlog, refreshItem_fetch_events fetch fuel address it s.heap r hri⟩
    · simp [refresh, hvalid] at hr
      exact ⟨[], by simp [← hr], by simp⟩
  refine ⟨?_, hpart, ?_, ?_⟩
  · rcases refreshItem_terminates fetch rank hranked n parent item s.heap hdepth with ⟨r, hr⟩
    rcases refresh_of_refreshItem fetch n parent s item r hitem hr with ⟨s1, hs1⟩
    exact ⟨s1, hs1, hpart parent n s1 hs1⟩
  · intro hf hobj fuel
    rcases (itemAt_eq_some s parent item).mp hitem with ⟨p, hp, hpath⟩
    by_cases hvalid : parent.isValid = true
    · have hri : refreshItem fetch (fuel + 1) parent item s.heap = Except.ok (item, s.heap, []) := by
        simp [refreshItem, hvalid, hobj, hf]
      simp [refresh, hvalid, hp, hpath, hri, replaceAtPath_self p s.m_RootItem item hpath]
    · simp [refresh, hvalid]
  · intro fuel address c h hobj hf
    by_cases hvalid : address.isValid = true
    · simp [refreshItem, hvalid, hobj, hf]
    · simp [refreshItem, hvalid]

/-! ## Witnesses, fetchMore and removeAllRows -/

theorem ranked_exServer_one (ys : List ObjPtr) (dead : List ObjPtr) (hys : ∀ y ∈ ys, y ≠ 0 ∧ y ≠ 1) :
    Ranked (exServer (fun o => if o = 1 then ys else []) dead) exRank := by
  apply ranked_exServer
  intro o c hc
  by_cases ho : o = 1
  · subst ho
    simp only [if_true] at hc
    have := hys c hc
    simp [exRank, this.1, this.2]
  · simp [ho] at hc

/-- An instance on the example data: of `P`, `A`, `B` and `C` only the fetched `P` is fetched again. -/
theorem refresh_fetches_only_fetched_witness :
    ∃ s1, refresh (exServer (fun o => if o = 1 then [2, 4] else []) [3]) 2 exP exState = Except.ok s1 ∧
      ∃ l, s1.log = exState.log ++ l ∧ ∀ o force was, Event.fetch o force was ∈ l → was = true :=
  (refresh_fetches_only_fetched (exServer (fun o => if o = 1 then [2, 4] else []) [3]) exState exP
    exItem exRank 2 rfl (ranked_exServer_one [2, 4] [3] (by decide)) exItem_depthBounded).1

theorem foldl_appendChild_childItems :
    ∀ (xs : List ObjPtr) (item : ctkXnatTreeItem),
      (xs.foldl (fun it child => it.appendChild (ctkXnatTreeItem.leaf child)) item).childItems =
        item.childItems ++ xs.map ctkXnatTreeItem.leaf := by
  intro xs
  induction xs with
  | nil => intro item; simp
  | cons x xs ih =>
    intro item
    rw [List.foldl_cons, ih]
    simp [ctkXnatTreeItem.appendChild]

/-- C6. `fetchMore` at a valid address whose item has no presentation children,
when the fetch it triggers returns the children `xs`: afterwards the presentation
children wrap `xs` in fetch order (so their count is the length of `xs`), and
besides the fetch itself the calls made are, for a non-empty `xs`, exactly one
insertion announcement with the range `[0, length xs - 1]` around the appends,
and for an empty `xs` none at all. -/
theorem fetchMore_populates (fetch : Fetch) (s : State) (index : QModelIndex)
    (item : ctkXnatTreeItem) (xs : List ObjPtr)
    (hvalid : index.isValid = true) (hitem : itemAt s index = some item)
    (hobj : item.xnatObject ≠ 0) (hempty : item.childItems = [])
    (hfetch : ((fetch item.xnatObject false s.heap) item.xnatObject).children = xs) :
    ∃ s1, fetchMore fetch index s = Except.ok s1 ∧
      presentationChildren s1 index = some xs ∧
      (itemAt s1 index).map ctkXnatTreeItem.childCount = some xs.length ∧
      s1.log = s.log ++ Event.fetch item.xnatObject false (s.heap item.xnatObject).isFetched ::
        (if xs = [] then []
         else Event.beginInsertRows index 0 ((xs.length : Int) - 1) ::
           (xs.map (Event.appendChild index) ++ [Event.endInsertRows])) := by
  rcases (itemAt_eq_some s index item).mp hitem with ⟨p, hp, hpath⟩
  by_cases hxs : xs = []
  · subst hxs
    refine ⟨{ m_RootItem := s.m_RootItem, heap := fetch item.xnatObject false s.heap,
              log := s.log ++ [Event.fetch item.xnatObject false (s.heap item.xnatObject).isFetched] },
      ?_, ?_, ?_, ?_⟩
    · simp [fetchMore, hvalid, hp, hpath, hobj, hfetch]
    · simp [presentationChildren, itemAt, hp, hpath, hempty]
    · simp [itemAt, hp, hpath, ctkXnatTreeItem.childCount, hempty]
    · simp
  · refine ⟨{ m_RootItem := s.m_RootItem.replaceAtPath p
                (xs.foldl (fun it child => it.appendChild (ctkXnatTreeItem.leaf child)) item),
              heap := fetch item.xnatObject false s.heap,
              log := s.log ++ [Event.fetch item.xnatObject false (s.heap item.xnatObject).isFetched,
                Event.beginInsertRows index 0 ((xs.length : Int) - 1)]
                ++ xs.map (Event.appendChild index) ++ [Event.endInsertRows] }, ?_, ?_, ?_, ?_⟩
    · simp [fetchMore, hvalid, hp, hpath, hobj, hfetch, hxs]
    · simp only [presentationChildren, itemAt, hp,
        itemAtPath_replaceAtPath _ p s.m_RootItem item hpath, Option.map_some',
        foldl_appendChild_childItems, hempty, List.nil_append, List.map_map]
      simp [Function.comp_def, ctkXnatTreeItem.leaf]
    · simp [itemAt, hp, itemAtPath_replaceAtPath _ p s.m_RootItem item hpath,
        foldl_appendChild_childItems, hempty, ctkXnatTreeItem.childCount]
    · simp [hxs]

/-- An instance on the example data: `fetchMore` at the childless item of `A` returns two children. -/
theorem fetchMore_populates_witness :
    ∃ s1, fetchMore (exServer (fun o => if o = 2 then [4, 5] else []) []) (createIndex 0 0 [0, 0])
        exState = Except.ok s1 ∧
      presentationChildren s1 (createIndex 0 0 [0, 0]) = some [4, 5] ∧
      (itemAt s1 (createIndex 0 0 [0, 0])).map ctkXnatTreeItem.childCount = some [4, 5].length ∧
      s1.log = exState.log ++ Event.fetch (ctkXnatTreeItem.leaf 2).xnatObject false
          (exState.heap (ctkXnatTreeItem.leaf 2).xnatObject).isFetched ::
        (if [4, 5] = ([] : List ObjPtr) then []
         else Event.beginInsertRows (createIndex 0 0 [0, 0]) 0 ((([4, 5] : List ObjPtr).length : Int) - 1) ::
           (([4, 5] : List ObjPtr).map (Event.appendChild (createIndex 0 0 [0, 0])) ++
             [Event.endInsertRows])) :=
  fetchMore_populates (exServer (fun o => if o = 2 then [4, 5] else []) []) exState
    (createIndex 0 0 [0, 0]) (ctkXnatTreeItem.leaf 2) [4, 5] (by decide) rfl (by decide) rfl rfl

/-- C9. `removeAllRows` at a valid address where it finds a non-null node to
remove, namely the child `child` at position `parent.row()` of the addressed
object's child list: it returns true, removes `child` from the child collection
of its parent, the addressed object, and announces a row-removal exactly when
`child` had `k > 0` children, with the range `[0, k - 1]`; for a childless
`child` the removal is made with no announcement. -/
theorem removeAllRows_removes (s : State) (parent : QModelIndex) (item : ctkXnatTreeItem)
    (child : ObjPtr) (hvalid : parent.isValid = true) (hitem : itemAt s parent = some item)
    (hobj : item.xnatObject ≠ 0)
    (hchild : (s.heap item.xnatObject).children[parent.row.toNat]? = some child)
    (hnonnull : child ≠ 0) :
    ∃ s1, removeAllRows parent s = Except.ok (true, s1) ∧
      s1.m_RootItem = s.m_RootItem ∧
      s1.heap = objectRemove s.heap item.xnatObject child ∧
      (s1.heap item.xnatObject).children = (s.heap item.xnatObject).children.erase child ∧
      s1.log = s.log ++
        (if (s.heap child).children.length > 0 then
          [Event.beginRemoveRows parent 0 (((s.heap child).children.length : Int) - 1),
            Event.objectRemove item.xnatObject child, Event.endRemoveRows]
         else [Event.objectRemove item.xnatObject child]) := by
  by_cases hk : (s.heap child).children.length > 0
  · refine ⟨{ s with
        heap := objectRemove s.heap item.xnatObject child
        log := s.log ++ [Event.beginRemoveRows parent 0 (((s.heap child).children.length : Int) - 1),
          Event.objectRemove item.xnatObject child, Event.endRemoveRows] }, ?_, rfl, rfl, ?_, ?_⟩
    · simp [removeAllRows, hvalid, xnatObject, hitem, hobj, hchild, hnonnull, hk]
    · simp [objectRemove]
    · simp [hk]
  · refine ⟨{ s with
        heap := objectRemove s.heap item.xnatObject child
        log := s.log ++ [Event.objectRemove item.xnatObject child] }, ?_, rfl, rfl, ?_, ?_⟩
    · simp [removeAllRows, hvalid, xnatObject, hitem, hobj, hchild, hnonnull, hk]
    · simp [objectRemove]
    · simp [hk]

/-- An instance on the example data: `removeAllRows` at the address of `P` (row 0) removes `A`. -/
theorem removeAllRows_removes_witness :
    ∃ s1, removeAllRows exP exState = Except.ok (true, s1) ∧
      s1.m_RootItem = exState.m_RootItem ∧
      s1.heap = objectRemove exState.heap exItem.xnatObject 2 ∧
      (s1.heap exItem.xnatObject).children = (exState.heap exItem.xnatObject).children.erase 2 ∧
      s1.log = exState.log ++
        (if (exState.heap 2).children.length > 0 then
          [Event.beginRemoveRows exP 0 (((exState.heap 2).children.length : Int) - 1),
            Event.objectRemove exItem.xnatObject 2, Event.endRemoveRows]
         else [Event.objectRemove exItem.xnatObject 2]) :=
  removeAllRows_removes exState exP exItem 2 (by decide) rfl (by decide) rfl (by decide)

/-! ## Lazily populated trees -/

theorem lazy_mono (h h1 : Heap) (hm : ∀ p, (h p).isFetched = true → (h1 p).isFetched = true)
    (t : ctkXnatTreeItem) (hl : Lazy h t) : Lazy h1 t := by
  induction hl with
  | mk o cs hnode _ ih =>
    refine Lazy.mk o cs ?_ ih
    intro hf
    apply hnode
    cases hfo : (h o).isFetched with
    | false => rfl
    | true => rw [hm o hfo] at hf; cases hf

theorem lazy_leaf (h : Heap) (o : ObjPtr) : Lazy h (ctkXnatTreeItem.leaf o) :=
  Lazy.mk o [] (fun _ => rfl) (by intro c hc; simp at hc)

theorem lazy_children (h : Heap) (t : ctkXnatTreeItem) (hl : Lazy h t) :
    ∀ c ∈ t.childItems, Lazy h c := by
  cases hl with
  | mk o cs _ hcs => exact hcs

theorem lazy_unfetched (h : Heap) (t : ctkXnatTreeItem) (hl : Lazy h t)
    (hf : (h t.xnatObject).isFetched = false) : t.childItems = [] := by
  cases hl with
  | mk o cs hnode _ => exact hnode hf

theorem mem_set_cases {α : Type} : ∀ (l : List α) (i : Nat) (a x : α), x ∈ l.set i a → x = a ∨ x ∈ l := by
  intro l
  induction l with
  | nil => intro i a x hx; simp at hx
  | cons y ys ih =>
    intro i a x hx
    cases i with
    | zero =>
      simp at hx
      rcases hx with hx | hx
      · left; exact hx
      · right; exact List.mem_cons_of_mem y hx
    | succ j =>
      simp at hx
      rcases hx with hx | hx
      · right; rw [hx]; exact List.mem_cons_self y ys
      · rcases ih j a x hx with h1 | h1
        · left; exact h1
        · right; exact List.mem_cons_of_mem y h1

theorem mem_of_getElem? {α : Type} (l : List α) (i : Nat) (a : α) (h : l[i]? = some a) : a ∈ l := by
  rcases List.getElem?_eq_some.mp h with ⟨hlt, hget⟩
  rw [← hget]
  exact List.getElem_mem hlt

theorem lazy_itemAtPath (h : Heap) :
    ∀ (p : List Nat) (t item : ctkXnatTreeItem), Lazy h t → t.itemAtPath p = some item →
      Lazy h item := by
  intro p
  induction p with
  | nil => intro t item hl hp; simp [ctkXnatTreeItem.itemAtPath] at hp; rw [← hp]; exact hl
  | cons r rs ih =>
    intro t item hl hp
    simp only [ctkXnatTreeItem.itemAtPath] at hp
    cases hc : t.childItems[r]? with
    | none => simp [hc] at hp
    | some c =>
      simp only [hc] at hp
      exact ih c item (lazy_children h t hl c (mem_of_getElem? _ r c hc)) hp

theorem lazy_replaceAtPath (h : Heap) (new : ctkXnatTreeItem) (hnew : Lazy h new) :
    ∀ (p : List Nat) (t : ctkXnatTreeItem), Lazy h t → Lazy h (t.replaceAtPath p new) := by
  intro p
  induction p with
  | nil => intro t _; exact hnew
  | cons r rs ih =>
    intro t hl
    cases t with
    | mk o cs =>
      simp only [ctkXnatTreeItem.replaceAtPath, childItems_mk]
      cases hc : cs[r]? with
      | none => exact hl
      | some c =>
        simp only [xnatObject_mk]
        have hcs := lazy_children h _ hl
        simp only [childItems_mk] at hcs
        refine Lazy.mk o _ ?_ ?_
        · intro hf
          have := lazy_unfetched h _ hl (by simpa using hf)
          simp only [childItems_mk] at this
          rw [this] at hc
          simp at hc
        · intro c1 hc1
          rcases mem_set_cases cs r _ c1 hc1 with heq | hmem
          · rw [heq]; exact ih c (hcs c (mem_of_getElem? cs r c hc))
          · exact hcs c1 hmem

theorem rootLazy_replaceAtPath (s : State) (h1 : Heap) (new : ctkXnatTreeItem) (p : List Nat)
    (hp : p ≠ []) (hs : ∀ c ∈ s.m_RootItem.childItems, Lazy h1 c) (hnew : Lazy h1 new) :
    ∀ c ∈ (s.m_RootItem.replaceAtPath p new).childItems, Lazy h1 c := by
  cases p with
  | nil => exact absurd rfl hp
  | cons r rs =>
    intro c hc
    simp only [ctkXnatTreeItem.replaceAtPath] at hc
    cases hr : s.m_RootItem.childItems[r]? with
    | none => simp only [hr] at hc; exact hs c hc
    | some c0 =>
      simp only [hr, childItems_mk] at hc
      rcases mem_set_cases _ r _ c hc with heq | hmem
      · rw [heq]
        exact lazy_replaceAtPath h1 new hnew rs c0 (hs c0 (mem_of_getElem? _ r c0 hr))
      · exact hs c hmem

theorem rootLazy_itemAt (s : State) (hs : RootLazy s) (p : List Nat) (hp : p ≠ [])
    (item : ctkXnatTreeItem) (hitem : s.m_RootItem.itemAtPath p = some item) : Lazy s.heap item := by
  cases p with
  | nil => exact absurd rfl hp
  | cons r rs =>
    simp only [ctkXnatTreeItem.itemAtPath] at hitem
    cases hr : s.m_RootItem.childItems[r]? with
    | none => simp [hr] at hitem
    | some c0 =>
      simp only [hr] at hitem
      exact lazy_itemAtPath s.heap rs c0 item (hs.2 c0 (mem_of_getElem? _ r c0 hr)) hitem

theorem refreshChild_lazy (Q : ctkXnatTreeItem → Prop) (hleaf : ∀ y, Q (ctkXnatTreeItem.leaf y))
    (parent : QModelIndex) (o y : ObjPtr) (st st1 : Loop)
    (hr : refreshChild parent o st y = Except.ok st1) (hall : ∀ c ∈ st.item.childItems, Q c) :
    (∀ c ∈ st1.item.childItems, Q c) ∧ st1.item.xnatObject = st.item.xnatObject ∧
      ∀ p, (st1.heap p).isFetched = (st.heap p).isFetched := by
  unfold refreshChild at hr
  split at hr
  · simp at hr
  · simp at hr
    rw [← hr]
    refine ⟨?_, rfl, ?_⟩
    · intro c hc
      simp only [ctkXnatTreeItem.remove, childItems_mk] at hc
      exact hall c (List.mem_of_mem_eraseP hc)
    · intro p
      simp only [objectRemove, Function.update]
      split
      · rename_i hpo; cases hpo; rfl
      · rfl
  · simp at hr
    rw [← hr]
    exact ⟨hall, rfl, fun _ => rfl⟩
  · simp at hr
    rw [← hr]
    refine ⟨?_, rfl, fun _ => rfl⟩
    intro c hc
    simp only [ctkXnatTreeItem.appendChild, childItems_mk, List.mem_append,
      List.mem_singleton] at hc
    rcases hc with hc | hc
    · exact hall c hc
    · rw [hc]; exact hleaf y

theorem reconcile_lazy (Q : ctkXnatTreeItem → Prop) (hleaf : ∀ y, Q (ctkXnatTreeItem.leaf y))
    (parent : QModelIndex) (o : ObjPtr) :
    ∀ (ys : List ObjPtr) (st st1 : Loop), reconcile parent o ys st = Except.ok st1 →
      (∀ c ∈ st.item.childItems, Q c) →
      (∀ c ∈ st1.item.childItems, Q c) ∧ st1.item.xnatObject = st.item.xnatObject ∧
        ∀ p, (st1.heap p).isFetched = (st.heap p).isFetched := by
  intro ys
  induction ys with
  | nil =>
    intro st st1 hr hall
    simp [reconcile] at hr
    rw [← hr]
    exact ⟨hall, rfl, fun _ => rfl⟩
  | cons y ys ih =>
    intro st st1 hr hall
    simp only [reconcile] at hr
    cases hc : refreshChild parent o st y with
    | error e => simp [hc] at hr
    | ok st2 =>
      simp only [hc] at hr
      rcases refreshChild_lazy Q hleaf parent o y st st2 hc hall with ⟨h1, h2, h3⟩
      rcases ih st2 st1 hr h1 with ⟨k1, k2, k3⟩
      exact ⟨k1, k2.trans h2, fun p => (k3 p).trans (h3 p)⟩

theorem refreshRows_lazy (recurse : QModelIndex → ctkXnatTreeItem → Heap → Except Fault Refreshed)
    (parent : QModelIndex)
    (hrec : ∀ idx c h r, recurse idx c h = Except.ok r → Lazy h c →
      Lazy r.2.1 r.1 ∧ ∀ p, (h p).isFetched = true → (r.2.1 p).isFetched = true) :
    ∀ (cs : List ctkXnatTreeItem) (i : Nat) (h : Heap) (r : List ctkXnatTreeItem × Heap × List Event),
      refreshRows recurse parent i cs h = Except.ok r → (∀ c ∈ cs, Lazy h c) →
      (∀ c ∈ r.1, Lazy r.2.1 c) ∧ ∀ p, (h p).isFetched = true → (r.2.1 p).isFetched = true := by
  intro cs
  induction cs with
  | nil =>
    intro i h r hr _
    simp [refreshRows] at hr
    rw [← hr]
    exact ⟨by intro c hc; simp at hc, fun _ hp => hp⟩
  | cons c cs ih =>
    intro i h r hr hall
    simp only [refreshRows] at hr
    cases h1 : recurse (childIndex parent i) c h with
    | error e => simp [h1] at hr
    | ok r1 =>
      obtain ⟨c1, hp1, l1⟩ := r1
      simp only [h1] at hr
      cases h2 : refreshRows recurse parent (i + 1) cs hp1 with
      | error e => simp [h2] at hr
      | ok r2 =>
        obtain ⟨cs1, hp2, l2⟩ := r2
        simp only [h2] at hr
        simp at hr
        rw [← hr]
        rcases hrec _ _ _ _ h1 (hall c (List.mem_cons_self c cs)) with ⟨hc1, hm1⟩
        have hrest : ∀ c' ∈ cs, Lazy hp1 c' :=
          fun c' hc' => lazy_mono h hp1 hm1 c' (hall c' (List.mem_cons_of_mem c hc'))
        rcases ih (i + 1) hp1 _ h2 hrest with ⟨hcs1, hm2⟩
        refine ⟨?_, fun p hp => hm2 p (hm1 p hp)⟩
        intro c' hc'
        rcases List.mem_cons.mp hc' with heq | hmem
        · rw [heq]; exact lazy_mono hp1 hp2 hm2 c1 hc1
        · exact hcs1 c' hmem

/-- Refreshing a lazily populated item leaves it lazily populated, and clears no
fetched-flag. -/
theorem refreshItem_lazy (fetch : Fetch) (hmarks : FetchMarks fetch) :
    ∀ (fuel : Nat) (parent : QModelIndex) (item : ctkXnatTreeItem) (h : Heap) (r : Refreshed),
      refreshItem fetch fuel parent item h = Except.ok r → Lazy h item →
      Lazy r.2.1 r.1 ∧ ∀ p, (h p).isFetched = true → (r.2.1 p).isFetched = true := by
  intro fuel
  induction fuel with
  | zero => intro parent item h r hr; simp [refreshItem] at hr
  | succ n ih =>
    intro parent item h r hr hl
    by_cases hvalid : parent.isValid = true
    · by_cases hobj : item.xnatObject = 0
      · simp [refreshItem, hvalid, hobj] at hr
      · by_cases hf : (h item.xnatObject).isFetched = true
        · cases hrec : reconcile parent item.xnatObject
              ((fetch item.xnatObject true h) item.xnatObject).children
              { item := item, heap := fetch item.xnatObject true h,
                numChildren := rowCountOf parent item,
                log := [Event.fetch item.xnatObject true (h item.xnatObject).isFetched] } with
          | error e =>
            rw [hf] at hrec
            simp [refreshItem, hvalid, hobj, hf, hrec] at hr
          | ok st =>
            rw [refreshItem_fetched fetch n parent item h st hvalid hobj hf hrec] at hr
            cases hrows : refreshRows (refreshItem fetch n) parent 0
                (st.item.childItems.take (rowCountOf parent st.item)) st.heap with
            | error e => simp [hrows] at hr
            | ok r2 =>
              obtain ⟨cs, h2, l⟩ := r2
              simp only [hrows] at hr
              simp at hr
              rw [← hr]
              have hm0 := (hmarks item.xnatObject true h).2
              have hl1 : ∀ c ∈ item.childItems, Lazy (fetch item.xnatObject true h) c :=
                fun c hc => lazy_mono h _ hm0 c (lazy_children h item hl c hc)
              rcases reconcile_lazy (Lazy (fetch item.xnatObject true h)) (lazy_leaf _) parent
                item.xnatObject _ _ st hrec hl1 with ⟨hst, _, hflags⟩
              have hmst : ∀ p, ((fetch item.xnatObject true h) p).isFetched = true →
                  (st.heap p).isFetched = true := fun p hp => by rw [hflags p]; exact hp
              have hst1 : ∀ c ∈ st.item.childItems, Lazy st.heap c :=
                fun c hc => lazy_mono _ st.heap hmst c (hst c hc)
              rcases refreshRows_lazy (refreshItem fetch n) parent ih _ 0 st.heap _ hrows
                (fun c hc => hst1 c (List.mem_of_mem_take hc)) with ⟨hcs, hm2⟩
              have hmall : ∀ p, (h p).isFetched = true → (h2 p).isFetched = true :=
                fun p hp => hm2 p (hmst p (hm0 p hp))
              refine ⟨Lazy.mk _ _ ?_ ?_, hmall⟩
              · intro hnf
                rw [hmall item.xnatObject hf] at hnf
                cases hnf
              · intro c hc
                rcases List.mem_append.mp hc with hc | hc
                · exact hcs c hc
                · exact lazy_mono st.heap h2 hm2 c (hst1 c (List.mem_of_mem_drop hc))
        · simp [refreshItem, hvalid, hobj, hf] at hr
          rw [← hr]
          exact ⟨hl, fun _ hp => hp⟩
    · simp [refreshItem, hvalid] at hr
      rw [← hr]
      exact ⟨hl, fun _ hp => hp⟩

theorem objectRemove_isFetched (h : Heap) (a b p : ObjPtr) :
    ((objectRemove h a b) p).isFetched = (h p).isFetched := by
  simp only [objectRemove, Function.update]
  split
  · rename_i hpa; cases hpa; rfl
  · rfl

theorem replaceAtPath_xnatObject (t new : ctkXnatTreeItem) (p : List Nat) (hp : p ≠ []) :
    (t.replaceAtPath p new).xnatObject = t.xnatObject := by
  cases p with
  | nil => exact absurd rfl hp
  | cons r rs =>
    simp only [ctkXnatTreeItem.replaceAtPath]
    cases t.childItems[r]? with
    | none => rfl
    | some c => rfl

theorem path_ne_nil_of_object (s : State) (hs : RootLazy s) (p : List Nat) (item : ctkXnatTreeItem)
    (hpath : s.m_RootItem.itemAtPath p = some item) (hobj : item.xnatObject ≠ 0) : p ≠ [] := by
  intro hnil
  rw [hnil] at hpath
  simp [ctkXnatTreeItem.itemAtPath] at hpath
  rw [← hpath] at hobj
  exact hobj hs.1

theorem fetchMore_rootLazy (fetch : Fetch) (hmarks : FetchMarks fetch) (s s1 : State)
    (index : QModelIndex) (hs : RootLazy s) (hop : fetchMore fetch index s = Except.ok s1) :
    RootLazy s1 := by
  by_cases hvalid : index.isValid = true
  · simp only [fetchMore, hvalid, Bool.not_true] at hop
    cases hp : index.internalPointer with
    | none => simp [hp] at hop
    | some p =>
      simp only [hp] at hop
      cases hpath : s.m_RootItem.itemAtPath p with
      | none => simp [hpath] at hop
      | some item =>
        simp only [hpath] at hop
        by_cases hobj : item.xnatObject = 0
        · simp [hobj] at hop
        · have hm := hmarks item.xnatObject false s.heap
          have hroot : ∀ c ∈ s.m_RootItem.childItems,
              Lazy (fetch item.xnatObject false s.heap) c :=
            fun c hc => lazy_mono s.heap _ hm.2 c (hs.2 c hc)
          by_cases hch : ((fetch item.xnatObject false s.heap) item.xnatObject).children = []
          · simp [hobj, hch] at hop
            rw [← hop]
            exact ⟨hs.1, hroot⟩
          · simp [hobj, hch] at hop
            rw [← hop]
            have hpne := path_ne_nil_of_object s hs p item hpath hobj
            refine ⟨by simp only [replaceAtPath_xnatObject _ _ p hpne]; exact hs.1, ?_⟩
            apply rootLazy_replaceAtPath s _ _ p hpne hroot
            have hitem := lazy_mono s.heap _ hm.2 item (rootLazy_itemAt s hs p hpne item hpath)
            rw [← mk_eta (List.foldl _ item _)]
            refine Lazy.mk _ _ ?_ ?_
            · intro hnf
              have hx : ∀ (xs : List ObjPtr) (it : ctkXnatTreeItem),
                  (xs.foldl (fun it child => it.appendChild (ctkXnatTreeItem.leaf child)) it).xnatObject
                    = it.xnatObject := by
                intro xs
                induction xs with
                | nil => intro it; rfl
                | cons x xs ihx => intro it; rw [List.foldl_cons, ihx]; rfl
              rw [hx, hm.1] at hnf
              cases hnf
            · intro c hc
              rw [foldl_appendChild_childItems] at hc
              rcases List.mem_append.mp hc with hc | hc
              · exact lazy_children _ item hitem c hc
              · rcases List.mem_map.mp hc with ⟨y, _, rfl⟩
                exact lazy_leaf _ y
  · simp [fetchMore, hvalid] at hop
    rw [← hop]
    exact hs

theorem refresh_rootLazy (fetch : Fetch) (hmarks : FetchMarks fetch) (s s1 : State) (fuel : Nat)
    (index : QModelIndex) (hs : RootLazy s) (hop : refresh fetch fuel index s = Except.ok s1) :
    RootLazy s1 := by
  by_cases hvalid : index.isValid = true
  · simp only [refresh, hvalid, Bool.not_true] at hop
    cases hp : index.internalPointer with
    | none => simp [hp] at hop
    | some p =>
      simp only [hp] at hop
      cases hpath : s.m_RootItem.itemAtPath p with
      | none => simp [hpath] at hop
      | some item =>
        simp only [hpath] at hop
        cases hri : refreshItem fetch fuel index item s.heap with
        | error e => simp [hri] at hop
        | ok r =>
          obtain ⟨item1, h1, l⟩ := r
          simp only [hri] at hop
          simp at hop
          rw [← hop]
          have hobj : item.xnatObject ≠ 0 := by
            intro h0
            cases fuel with
            | zero => simp [refreshItem] at hri
            | succ n => simp [refreshItem, hvalid, h0] at hri
          have hpne := path_ne_nil_of_object s hs p item hpath hobj
          rcases refreshItem_lazy fetch hmarks fuel index item s.heap _ hri
            (rootLazy_itemAt s hs p hpne item hpath) with ⟨hl1, hmono⟩
          refine ⟨by simp only [replaceAtPath_xnatObject _ _ p hpne]; exact hs.1, ?_⟩
          exact rootLazy_replaceAtPath s h1 item1 p hpne
            (fun c hc => lazy_mono s.heap h1 hmono c (hs.2 c hc)) hl1
  · simp [refresh, hvalid] at hop
    rw [← hop]
    exact hs

theorem removeAllRows_rootLazy (s s1 : State) (removed : Bool) (index : QModelIndex)
    (hs : RootLazy s) (hop : removeAllRows index s = Except.ok (removed, s1)) : RootLazy s1 := by
  have key : ∀ a b, RootLazy { s with heap := objectRemove s.heap a b } := by
    intro a b
    exact ⟨hs.1, fun c hc => lazy_mono s.heap _
      (fun p hp => by rw [objectRemove_isFetched]; exact hp) c (hs.2 c hc)⟩
  unfold removeAllRows at hop
  split at hop
  · simp at hop; rw [← hop.2]; exact hs
  · split at hop
    · simp at hop
    · split at hop
      · simp at hop
      · split at hop
        · simp at hop
        · split at hop
          · simp at hop; rw [← hop.2]; exact hs
          · simp only at hop
            split at hop
            · simp at hop
              rw [← hop.2]
              exact ⟨hs.1, (key _ _).2⟩
            · simp at hop
              rw [← hop.2]
              exact ⟨hs.1, (key _ _).2⟩

theorem downloadFile_rootLazy (s s1 : State) (index : QModelIndex) (zipFileName : String)
    (hs : RootLazy s) (hop : downloadFile index zipFileName s = Except.ok s1) : RootLazy s1 := by
  unfold downloadFile at hop
  split at hop
  · simp at hop; rw [← hop]; exact hs
  · split at hop
    · simp at hop
    · split at hop
      · simp at hop
      · simp at hop; rw [← hop]; exact hs

theorem addChildNode_rootLazy (s s1 : State) (index : QModelIndex) (item : ctkXnatTreeItem)
    (child : ObjPtr) (hs : RootLazy s) (hitem : itemAt s index = some item)
    (hf : (s.heap item.xnatObject).isFetched = true)
    (hop : addChildNode index child s = Except.ok s1) : RootLazy s1 := by
  rcases (itemAt_eq_some s index item).mp hitem with ⟨p, hp, hpath⟩
  simp only [addChildNode, hp, hpath] at hop
  simp at hop
  rw [← hop]
  have hchildren : ∀ c ∈ (item.appendChild (ctkXnatTreeItem.leaf child)).childItems,
      (∀ c0 ∈ item.childItems, Lazy s.heap c0) → Lazy s.heap c := by
    intro c hc hall
    simp only [ctkXnatTreeItem.appendChild, childItems_mk, List.mem_append,
      List.mem_singleton] at hc
    rcases hc with hc | hc
    · exact hall c hc
    · rw [hc]; exact lazy_leaf _ child
  by_cases hpne : p = []
  · subst hpne
    simp only [ctkXnatTreeItem.itemAtPath, Option.some.injEq] at hpath
    subst hpath
    simp only [ctkXnatTreeItem.replaceAtPath]
    exact ⟨hs.1, fun c hc => hchildren c hc hs.2⟩
  · have hlazy := rootLazy_itemAt s hs p hpne item hpath
    refine ⟨by simp only [replaceAtPath_xnatObject _ _ p hpne]; exact hs.1, ?_⟩
    apply rootLazy_replaceAtPath s s.heap _ p hpne hs.2
    rw [← mk_eta (item.appendChild (ctkXnatTreeItem.leaf child))]
    refine Lazy.mk _ _ ?_ ?_
    · intro hnf
      simp only [ctkXnatTreeItem.appendChild, xnatObject_mk] at hnf
      rw [hf] at hnf
      cases hnf
    · intro c hc
      exact hchildren c hc (lazy_children s.heap item hlazy)

/-- When `addChildNode` is only used at items whose object is fetched, every
reachable state is lazily populated. -/
theorem reachable_rootLazy (fetch : Fetch) (hmarks : FetchMarks fetch) (s : State)
    (hr : Reachable fetch false s) : RootLazy s := by
  induction hr with
  | init h => exact ⟨rfl, by intro c hc; simp at hc⟩
  | addDataModel s d _ ih =>
    refine ⟨ih.1, ?_⟩
    intro c hc
    simp only [addDataModel, ctkXnatTreeItem.appendChild, childItems_mk, List.mem_append,
      List.mem_singleton] at hc
    rcases hc with hc | hc
    · exact ih.2 c hc
    · rw [hc]; exact lazy_leaf _ d
  | removeDataModel s d _ ih =>
    refine ⟨ih.1, ?_⟩
    intro c hc
    simp only [removeDataModel, ctkXnatTreeItem.remove, childItems_mk] at hc
    exact ih.2 c (List.mem_of_mem_eraseP hc)
  | fetchMore s s1 index _ hop ih => exact fetchMore_rootLazy fetch hmarks s s1 index ih hop
  | refresh s s1 fuel index _ hop ih => exact refresh_rootLazy fetch hmarks s s1 fuel index ih hop
  | removeAllRows s s1 removed index _ hop ih => exact removeAllRows_rootLazy s s1 removed index ih hop
  | downloadFile s s1 index zip _ hop ih => exact downloadFile_rootLazy s s1 index zip ih hop
  | addChildNode s s1 index child hw _ _ _ => cases hw
  | addChildNodeFetched s s1 index item child _ hitem hf hop ih =>
    exact addChildNode_rootLazy s s1 index item child ih hitem hf hop

/-! ## The claims about addresses, and the examples -/

theorem fetchMarks_exServer (kids : ObjPtr → List ObjPtr) (dead : List ObjPtr) :
    FetchMarks (exServer kids dead) := by
  intro o force h
  refine ⟨by simp [exServer], ?_⟩
  intro p hp
  simp [exServer, hp]

/-- C7 (amended). In every state and at every valid address of an item,
`canFetchMore` returns true exactly when the item has zero presentation
children, and at every invalid address (the synthetic root) it returns false;
and in every state reached through the operations of the adapter with
`addChildNode` used only at items whose object is fetched, with a collaborator
whose fetch marks the object fetched and clears no fetched-flag, an item below
the synthetic root whose object is not fetched has presentation child count 0
and `canFetchMore` returns true for it. -/
theorem canFetchMore_lazy (fetch : Fetch) (s : State) (index : QModelIndex) (item : ctkXnatTreeItem)
    (p : List Nat) (hmarks : FetchMarks fetch) (hreach : Reachable fetch false s)
    (hvalid : index.isValid = true) (hp : index.internalPointer = some p) (hpne : p ≠ [])
    (hitem : s.m_RootItem.itemAtPath p = some item) :
    (∀ (s0 : State) (index0 : QModelIndex) (item0 : ctkXnatTreeItem),
      index0.isValid = true → itemAt s0 index0 = some item0 →
      canFetchMore s0 index0 = Except.ok (decide (item0.childCount = 0))) ∧
    (∀ (s0 : State) (index0 : QModelIndex), index0.isValid = false →
      canFetchMore s0 index0 = Except.ok false) ∧
    ((s.heap item.xnatObject).isFetched = false →
      item.childCount = 0 ∧ canFetchMore s index = Except.ok true) := by
  have hcan : ∀ (s0 : State) (index0 : QModelIndex) (item0 : ctkXnatTreeItem),
      index0.isValid = true → itemAt s0 index0 = some item0 →
      canFetchMore s0 index0 = Except.ok (decide (item0.childCount = 0)) := by
    intro s0 index0 item0 hv hi
    simp only [canFetchMore, hv, hi, Bool.not_true]
    by_cases h0 : item0.childCount = 0 <;> simp [h0]
    omega
  refine ⟨hcan, ?_, ?_⟩
  · intro s0 index0 hinv
    simp [canFetchMore, hinv]
  · intro hf
    have hlazy := rootLazy_itemAt s (reachable_rootLazy fetch hmarks s hreach) p hpne item hitem
    have hnil := lazy_unfetched s.heap item hlazy hf
    have h0 : item.childCount = 0 := by simp [ctkXnatTreeItem.childCount, hnil]
    have hat : itemAt s index = some item := by simp [itemAt, hp, hitem]
    exact ⟨h0, by rw [hcan s index item hvalid hat]; simp [h0]⟩

/-- An instance on the example data: `addChildNode` has put `A` under the fetched
`P`, and the item of the unfetched `A` has no children; the first part is read
off at the state `exAdded`, where `addChildNode` was used at an unfetched node. -/
theorem canFetchMore_lazy_witness :
    canFetchMore exAdded exP =
      Except.ok (decide ((ctkXnatTreeItem.mk 1 [ctkXnatTreeItem.leaf 2]).childCount = 0)) ∧
    ((exAddedFetched.heap (ctkXnatTreeItem.leaf 2).xnatObject).isFetched = false →
      (ctkXnatTreeItem.leaf 2).childCount = 0 ∧
      canFetchMore exAddedFetched (createIndex 0 0 [0, 0]) = Except.ok true) :=
  ⟨(canFetchMore_lazy (exServer (fun _ => []) []) exAddedFetched (createIndex 0 0 [0, 0])
      (ctkXnatTreeItem.leaf 2) [0, 0] (fetchMarks_exServer _ _)
      (Reachable.addChildNodeFetched
        (addDataModel 1 { m_RootItem := ctkXnatTreeItem.mk 0 [], heap := exHeap, log := [] })
        exAddedFetched exP (ctkXnatTreeItem.leaf 1) 2
        (Reachable.addDataModel _ 1 (Reachable.init exHeap)) rfl rfl rfl)
      (by decide) rfl (by decide) rfl).1 exAdded exP _ (by decide) rfl,
   (canFetchMore_lazy (exServer (fun _ => []) []) exAddedFetched (createIndex 0 0 [0, 0])
      (ctkXnatTreeItem.leaf 2) [0, 0] (fetchMarks_exServer _ _)
      (Reachable.addChildNodeFetched
        (addDataModel 1 { m_RootItem := ctkXnatTreeItem.mk 0 [], heap := exHeap, log := [] })
        exAddedFetched exP (ctkXnatTreeItem.leaf 1) 2
        (Reachable.addDataModel _ 1 (Reachable.init exHeap)) rfl rfl rfl)
      (by decide) rfl (by decide) rfl).2.2⟩

/-- C7 (counterexample). `addChildNode` gives presentation children to an item
whose object was never fetched: in the reachable state `exAdded` the item of the
unfetched object 1 has one presentation child and `canFetchMore` returns false
for it. -/
theorem addChildNode_gives_unfetched_node_children :
    Reachable (exServer (fun _ => []) []) true exAdded ∧
    itemAt exAdded exP = some (ctkXnatTreeItem.mk 1 [ctkXnatTreeItem.leaf 2]) ∧
    (exAdded.heap 1).isFetched = false ∧
    (ctkXnatTreeItem.mk 1 [ctkXnatTreeItem.leaf 2]).childCount = 1 ∧
    canFetchMore exAdded exP = Except.ok false :=
  ⟨Reachable.addChildNode
      (addDataModel 1 { m_RootItem := ctkXnatTreeItem.mk 0 [], heap := exUnfetched, log := [] })
      exAdded exP 2 rfl (Reachable.addDataModel _ 1 (Reachable.init exUnfetched)) rfl,
    rfl, rfl, rfl, rfl⟩

/-- C8 (amended). For an invalid address `data`, `parent`, `canFetchMore`,
`fetchMore`, `refresh`, `removeAllRows` and `downloadFile` return the neutral
result and leave the model and the remote objects unchanged, in every state; and
`removeAllRows` at a valid address whose addressed child is null returns false
without any effect. -/
theorem invalid_address_is_neutral (fetch : Fetch) (s : State) (index : QModelIndex)
    (role : ItemDataRole) (fuel : Nat) (zipFileName : String)
    (hinvalid : index.isValid = false) :
    data s index role = Except.ok QVariant.invalid ∧
    parent s index = Except.ok QModelIndex.invalid ∧
    canFetchMore s index = Except.ok false ∧
    fetchMore fetch index s = Except.ok s ∧
    refresh fetch fuel index s = Except.ok s ∧
    removeAllRows index s = Except.ok (false, s) ∧
    downloadFile index zipFileName s = Except.ok s ∧
    (∀ (address : QModelIndex) (item : ctkXnatTreeItem), address.isValid = true →
      itemAt s address = some item → item.xnatObject ≠ 0 →
      (s.heap item.xnatObject).children[address.row.toNat]? = some 0 →
      removeAllRows address s = Except.ok (false, s)) := by
  refine ⟨?_, ?_, ?_, ?_, ?_, ?_, ?_, ?_⟩
  · simp [data, hinvalid]
  · simp [parent, hinvalid]
  · simp [canFetchMore, hinvalid]
  · simp [fetchMore, hinvalid]
  · simp [refresh, hinvalid]
  · simp [removeAllRows, hinvalid]
  · simp [downloadFile, hinvalid]
  · intro address item hvalid hitem hobj hnull
    simp [removeAllRows, hvalid, xnatObject, hitem, hobj, hnull]

/-- An instance on the example data: the invalid address in the state `exState`,
and `removeAllRows` at the address of `P` when the first child of `P` is null. -/
theorem invalid_address_is_neutral_witness :
    (data exState QModelIndex.invalid ItemDataRole.DisplayRole = Except.ok QVariant.invalid ∧
     parent exState QModelIndex.invalid = Except.ok QModelIndex.invalid ∧
     canFetchMore exState QModelIndex.invalid = Except.ok false ∧
     fetchMore (exServer (fun _ => []) []) QModelIndex.invalid exState = Except.ok exState ∧
     refresh (exServer (fun _ => []) []) 0 QModelIndex.invalid exState = Except.ok exState ∧
     removeAllRows QModelIndex.invalid exState = Except.ok (false, exState) ∧
     downloadFile QModelIndex.invalid "a.zip" exState = Except.ok exState) ∧
    removeAllRows exP exNullChild = Except.ok (false, exNullChild) :=
  ⟨⟨(invalid_address_is_neutral (exServer (fun _ => []) []) exState QModelIndex.invalid
        ItemDataRole.DisplayRole 0 "a.zip" (by decide)).1,
     (invalid_address_is_neutral (exServer (fun _ => []) []) exState QModelIndex.invalid
        ItemDataRole.DisplayRole 0 "a.zip" (by decide)).2.1,
     (invalid_address_is_neutral (exServer (fun _ => []) []) exState QModelIndex.invalid
        ItemDataRole.DisplayRole 0 "a.zip" (by decide)).2.2.1,
     (invalid_address_is_neutral (exServer (fun _ => []) []) exState QModelIndex.invalid
        ItemDataRole.DisplayRole 0 "a.zip" (by decide)).2.2.2.1,
     (invalid_address_is_neutral (exServer (fun _ => []) []) exState QModelIndex.invalid
        ItemDataRole.DisplayRole 0 "a.zip" (by decide)).2.2.2.2.1,
     (invalid_address_is_neutral (exServer (fun _ => []) []) exState QModelIndex.invalid
        ItemDataRole.DisplayRole 0 "a.zip" (by decide)).2.2.2.2.2.1,
     (invalid_address_is_neutral (exServer (fun _ => []) []) exState QModelIndex.invalid
        ItemDataRole.DisplayRole 0 "a.zip" (by decide)).2.2.2.2.2.2.1⟩,
   (invalid_address_is_neutral (exServer (fun _ => []) []) exNullChild QModelIndex.invalid
      ItemDataRole.DisplayRole 0 "a.zip" (by decide)).2.2.2.2.2.2.2 exP exItem (by decide) rfl
      (by decide) (by rfl)⟩

/-- C8 (counterexample). An invalid address is not neutral for every operation:
`xnatObject` and `addChildNode` dereference the null item pointer, `index` treats
the invalid address as the synthetic root and returns the address of its row;
and `removeAllRows` at the valid address of the childless node `B` (row 1) reads
outside the child list of `B`. -/
theorem invalid_address_not_always_neutral :
    xnatObject exState QModelIndex.invalid = Except.error Fault.nullPointer ∧
    (∀ s1, addChildNode QModelIndex.invalid 4 exState ≠ Except.ok s1) ∧
    index exState 0 0 QModelIndex.invalid = Except.ok (createIndex 0 0 [0]) ∧
    (createIndex 1 0 [0, 1]).isValid = true ∧
    itemAt exState (createIndex 1 0 [0, 1]) = some (ctkXnatTreeItem.leaf 3) ∧
    (∀ r, removeAllRows (createIndex 1 0 [0, 1]) exState ≠ Except.ok r) :=
  ⟨rfl, fun s1 h => by simp [addChildNode, QModelIndex.invalid] at h, rfl, by decide, rfl,
    fun r h => by
      have : removeAllRows (createIndex 1 0 [0, 1]) exState = Except.error Fault.outOfRange := rfl
      rw [this] at h
      cases h⟩

/-- C1. The example of the spec: `P` has the presentation children `[A, B]`, the
forced fetch reports the children `[A, C]`, and `B` no longer exists.  The refresh
announces the removal of the row of `B` and then stops caring about `C`: no
insertion is announced, the presentation children end as `[A]`, and `C` has been
taken out of the child collection of `P`. -/
theorem refresh_example_drops_new_child :
    presentationChildren exState exP = some [2, 3] ∧
    ((exServer (fun o => if o = 1 then [2, 4] else []) [3] 1 true exState.heap) 1).children = [2, 4] ∧
    ((exServer (fun o => if o = 1 then [2, 4] else []) [3] 1 true exState.heap) 3).exists_ = false ∧
    ∃ s1, refresh (exServer (fun o => if o = 1 then [2, 4] else []) [3]) 2 exP exState = Except.ok s1 ∧
      presentationChildren s1 exP = some [2] ∧
      s1.log = [Event.fetch 1 true true, Event.beginRemoveRows exP 1 1, Event.removeItem exP 3,
        Event.objectRemove 1 4, Event.endRemoveRows] ∧
      (s1.heap 1).children = [2] :=
  ⟨rfl, rfl, rfl, _, rfl, rfl, rfl, rfl⟩

/-- The same example when the deleted `B` is still listed among the children
after the forced fetch, which then reports `[A, B, C]`: the server child whose
scan meets the dead item is `B` itself, so the refresh removes the row of `B`,
detaches `B` and then appends `C`. -/
theorem refresh_example_listed_deleted_child :
    ∃ s1, refresh (exServer (fun o => if o = 1 then [2, 3, 4] else []) [3]) 2 exP exState =
        Except.ok s1 ∧
      presentationChildren s1 exP = some [2, 4] ∧
      s1.log = [Event.fetch 1 true true, Event.beginRemoveRows exP 1 1, Event.removeItem exP 3,
        Event.objectRemove 1 3, Event.endRemoveRows, Event.beginInsertRows exP 0 0,
        Event.appendChild exP 4, Event.endInsertRows] ∧
      (s1.heap 1).children = [2, 4] :=
  ⟨_, rfl, rfl, rfl, rfl⟩

/-- C2. `P` has the presentation children `[A, B]` and `B` no longer exists.  When
the forced fetch reports the children `[A]`, or no children at all, the refresh
removes nothing: the presentation children are still `[A, B]` and nothing but
the fetch has been called. -/
theorem refresh_example_keeps_deleted_child :
    ((exServer (fun o => if o = 1 then [2] else []) [3] 1 true exState.heap) 3).exists_ = false ∧
    (∃ s1, refresh (exServer (fun o => if o = 1 then [2] else []) [3]) 2 exP exState = Except.ok s1 ∧
      presentationChildren s1 exP = some [2, 3] ∧ s1.log = [Event.fetch 1 true true]) ∧
    (∃ s1, refresh (exServer (fun _ => []) [3]) 2 exP exState = Except.ok s1 ∧
      presentationChildren s1 exP = some [2, 3] ∧ s1.log = [Event.fetch 1 true true]) :=
  ⟨rfl, ⟨_, rfl, rfl, rfl⟩, ⟨_, rfl, rfl, rfl⟩⟩

/-- C10. The insertion ranges announced by `addChildNode` and by `refresh` are
not the rows appended: with two presentation children under `P`, `addChildNode`
appends `C` as row 2 between `beginInsertRows(P, 0, 1)` and `endInsertRows()`, and
so does the refresh that finds the new server child `C`. -/
theorem insertion_range_is_not_the_appended_row :
    presentationChildren exState exP = some [2, 3] ∧
    (∃ s1, addChildNode exP 4 exState = Except.ok s1 ∧
      presentationChildren s1 exP = some [2, 3, 4] ∧
      s1.log = [Event.beginInsertRows exP 0 1, Event.appendChild exP 4, Event.endInsertRows]) ∧
    (∃ s1, refresh (exServer (fun o => if o = 1 then [2, 3, 4] else []) []) 2 exP exState =
        Except.ok s1 ∧
      presentationChildren s1 exP = some [2, 3, 4] ∧
      s1.log = [Event.fetch 1 true true, Event.beginInsertRows exP 0 1, Event.appendChild exP 4,
        Event.endInsertRows]) :=
  ⟨rfl, ⟨_, rfl, rfl, rfl⟩, ⟨_, rfl, rfl, rfl⟩⟩

/-! ## The matching rule, the detached child and hasChildren -/

theorem sameObject_iff (a b : ctkXnatObject) :
    sameObject a b = true ↔
      (a.id.length ≠ 0 ∧ a.id = b.id) ∨ (a.id.length = 0 ∧ a.name = b.name) := by
  unfold sameObject
  by_cases h : a.id.length = 0 <;> simp [h]

/-- C11 (amended). During refresh a scanned presentation child whose object
exists is treated as already present for a server child if and only if either
the presentation child's identifier is non-empty and equal to the server child's
identifier, or the presentation child's identifier is empty and the display
names are equal: in that case the scan ends as present, otherwise it goes on
with the next position.  The identifier of the server child is not looked at in
the second case, so a presentation child with an empty identifier matches a
server child of the same name whatever that child's identifier is. -/
theorem scan_treats_as_present (h : Heap) (child : ObjPtr) (item c : ctkXnatTreeItem)
    (i remaining : Nat) (hchild : item.child i = some c) (hobj : c.xnatObject ≠ 0)
    (hexists : (h c.xnatObject).exists_ = true) (hserver : child ≠ 0) :
    (sameObject (h c.xnatObject) (h child) = true ↔
      ((h c.xnatObject).id.length ≠ 0 ∧ (h c.xnatObject).id = (h child).id) ∨
      ((h c.xnatObject).id.length = 0 ∧ (h c.xnatObject).name = (h child).name)) ∧
    (sameObject (h c.xnatObject) (h child) = true →
      scan h child item i (remaining + 1) = ScanOutcome.present) ∧
    (sameObject (h c.xnatObject) (h child) = false →
      scan h child item i (remaining + 1) = scan h child item (i + 1) remaining) ∧
    ((h c.xnatObject).id.length = 0 → (h c.xnatObject).name = (h child).name →
      scan h child item i (remaining + 1) = ScanOutcome.present) := by
  have hiff := sameObject_iff (h c.xnatObject) (h child)
  refine ⟨hiff, ?_, ?_, ?_⟩
  · intro hs
    simp [scan, hchild, hobj, hexists, hserver, hs]
  · intro hs
    simp [scan, hchild, hobj, hexists, hserver, hs]
  · intro h0 hname
    have hs := hiff.mpr (Or.inr ⟨h0, hname⟩)
    simp [scan, hchild, hobj, hexists, hserver, hs]

/-- An instance on the example names: the item of the object without identifier
is scanned for the server child with the identifier `7`. -/
theorem scan_treats_as_present_witness :
    scan exNames 3 (ctkXnatTreeItem.mk 1 [ctkXnatTreeItem.leaf 2]) 0 (0 + 1) = ScanOutcome.present :=
  (scan_treats_as_present exNames 3 (ctkXnatTreeItem.mk 1 [ctkXnatTreeItem.leaf 2])
    (ctkXnatTreeItem.leaf 2) 0 0 rfl (by decide) (by decide) (by decide)).2.2.2 (by decide) (by decide)

/-- C11 (counterexample). A presentation child with an empty identifier is treated
as already present for a server child with a non-empty identifier and the same
name, although neither are both identifiers non-empty and equal nor are both
empty. -/
theorem empty_identifier_matches_by_name :
    (exNames 2).id.length = 0 ∧ (exNames 3).id.length ≠ 0 ∧ (exNames 2).name = (exNames 3).name ∧
    (exNames 2).exists_ = true ∧
    scan exNames 3 (ctkXnatTreeItem.mk 1 [ctkXnatTreeItem.leaf 2]) 0 1 = ScanOutcome.present ∧
    ¬ (((exNames 2).id.length ≠ 0 ∧ (exNames 3).id.length ≠ 0 ∧ (exNames 2).id = (exNames 3).id) ∨
       ((exNames 2).id.length = 0 ∧ (exNames 3).id.length = 0 ∧
         (exNames 2).name = (exNames 3).name)) := by
  decide

/-- C12. In the example of the spec the forced fetch reports the children `[A, C]`
of `P`, both existing, and the presentation child `B` no longer exists.  The tree
item removed is the one of `B`, but the object detached from the child collection
of `P` is the existing `C`, which is no longer in that collection when the
refresh returns. -/
theorem refresh_example_detaches_existing_child :
    ((exServer (fun o => if o = 1 then [2, 4] else []) [3] 1 true exState.heap) 1).children = [2, 4] ∧
    ((exServer (fun o => if o = 1 then [2, 4] else []) [3] 1 true exState.heap) 4).exists_ = true ∧
    ∃ s1, refresh (exServer (fun o => if o = 1 then [2, 4] else []) [3]) 2 exP exState = Except.ok s1 ∧
      (s1.heap 4).exists_ = true ∧
      (s1.heap 1).children = [2] ∧
      s1.log.filter (fun e => e matches Event.removeItem _ _ || e matches Event.objectRemove _ _) =
        [Event.removeItem exP 3, Event.objectRemove 1 4] :=
  ⟨rfl, rfl, _, rfl, rfl, rfl, rfl⟩

/-- C13. In every state `hasChildren` returns true at every valid address whose
tree item wraps a remote object, whatever the fetched-flag and the child list of
the object are, and at an invalid address it returns true exactly when the
synthetic root has at least one child. -/
theorem hasChildren_of_object (s : State) (address : QModelIndex)
    (hinvalid : address.isValid = false) :
    (∀ (index : QModelIndex) (item : ctkXnatTreeItem), index.isValid = true →
      itemAt s index = some item → item.xnatObject ≠ 0 →
      hasChildren s index = Except.ok true) ∧
    hasChildren s address = Except.ok (decide (0 < s.m_RootItem.childCount)) := by
  constructor
  · intro index item hvalid hitem hobj
    simp [hasChildren, hvalid, hitem, hobj]
  · simp [hasChildren, hinvalid]

/-- An instance on the example data: `P` is fetched and has an empty child list,
and `hasChildren` is true for it and for the root above it; for the root of a
newly constructed model, which has no child, it is false. -/
theorem hasChildren_of_object_witness :
    (exNoChildren.heap exItem.xnatObject).isFetched = true ∧
    (exNoChildren.heap exItem.xnatObject).children = [] ∧
    hasChildren exNoChildren exP = Except.ok true ∧
    hasChildren exNoChildren QModelIndex.invalid =
      Except.ok (decide (0 < exNoChildren.m_RootItem.childCount)) ∧
    decide (0 < exNoChildren.m_RootItem.childCount) = true ∧
    hasChildren exEmpty QModelIndex.invalid =
      Except.ok (decide (0 < exEmpty.m_RootItem.childCount)) ∧
    decide (0 < exEmpty.m_RootItem.childCount) = false :=
  ⟨rfl, rfl,
    (hasChildren_of_object exNoChildren QModelIndex.invalid (by decide)).1 exP exItem (by decide) rfl
      (by decide),
    (hasChildren_of_object exNoChildren QModelIndex.invalid (by decide)).2, by decide,
    (hasChildren_of_object exEmpty QModelIndex.invalid (by decide)).2, by decide⟩

end XnatTree

namespace DicomTable

/-! ## The flag of the automatic series selection and the wiring -/

theorem count_connect (cs : List Connection) (sender : Widget) (signal : String) (receiver : Widget)
    (method : String) (t : Connection) :
    (connect cs sender signal receiver method).count t =
      cs.count t + if Connection.mk sender signal receiver method = t then 1 else 0 := by
  unfold connect
  rw [List.count_append, List.count_singleton]
  by_cases h : Connection.mk sender signal receiver method = t
  · simp [h]
  · simp [h]

theorem count_disconnect (cs : List Connection) (sender : Widget) (signal : String)
    (receiver : Widget) (method : String) (t : Connection) :
    (disconnect cs sender signal receiver method).count t =
      if Connection.mk sender signal receiver method = t then 0 else cs.count t := by
  unfold disconnect
  by_cases h : Connection.mk sender signal receiver method = t
  · simp only [h, if_true]
    apply List.count_eq_zero.mpr
    intro hmem
    have := (List.mem_filter.mp hmem).2
    simp at this
  · simp only [h, if_false]
    apply List.count_filter
    simp
    exact fun h1 => h h1.symm

theorem count_initConnections (cs : List Connection) (method : String) :
    (initConnections cs).count (studiesToSeries method) = cs.count (studiesToSeries method) := by
  simp [initConnections, count_connect, studiesToSeries]

theorem agree_setAutoSelectSeries (autoSelect : Bool) (s : ctkDICOMTableManager) (hs : Agree s) :
    Agree (setAutoSelectSeries autoSelect s) := by
  unfold setAutoSelectSeries
  split
  · exact hs
  · rename_i hne
    split
    · rename_i hon
      have hflag : s.m_AutoSelectSeries = false := by
        cases hf : s.m_AutoSelectSeries with
        | false => rfl
        | true => rw [hf, hon] at hne; exact absurd rfl hne
      have hun := hs.2 hflag
      unfold Unwired at hun
      split
      · rename_i hmode
        simp only [selectionMode] at hmode
        refine ⟨fun _ => ?_, fun h => ?_⟩
        · simp only [Wired, selectionMode, hmode, if_true, count_connect, hun.1, hun.2]
          simp [studiesToSeries]
        · simp only [hon] at h
          cases h
      · rename_i hmode
        simp only [selectionMode] at hmode
        refine ⟨fun _ => ?_, fun h => ?_⟩
        · simp only [Wired, selectionMode, hmode, if_false, count_connect, hun.1, hun.2]
          simp [studiesToSeries]
        · simp only [hon] at h
          cases h
    · rename_i hoff
      refine ⟨fun h => ?_, fun _ => ?_⟩
      · exact absurd h hoff
      · simp only [Unwired, count_disconnect]
        simp [studiesToSeries]

theorem agree_disable (s : ctkDICOMTableManager) (hf : s.m_AutoSelectSeries = true) :
    Agree (setAutoSelectSeries false s) := by
  unfold setAutoSelectSeries
  simp only [hf, Bool.false_eq_true, if_false]
  constructor
  · intro h
    cases h
  · intro _
    simp only [Unwired, count_disconnect]
    simp [studiesToSeries]

theorem wired_congr (cs ds : List Connection) (mode : Int)
    (h1 : ds.count (studiesToSeries "selectFirst()") = cs.count (studiesToSeries "selectFirst()"))
    (h2 : ds.count (studiesToSeries "selectAll()") = cs.count (studiesToSeries "selectAll()")) :
    Wired ds mode ↔ Wired cs mode := by
  unfold Wired
  rw [h1, h2]

theorem count_reconnect_patients (cs : List Connection) (mode : Int) (method : String) :
    (if mode = SingleSelection then
        connect (disconnect (disconnect cs Widget.patientsTable "selectionChanged(QStringList)"
          Widget.studiesTable "selectAll()") Widget.patientsTable "selectionChanged(QStringList)"
          Widget.studiesTable "selectFirst()") Widget.patientsTable "selectionChanged(QStringList)"
          Widget.studiesTable "selectFirst()"
      else
        connect (disconnect (disconnect cs Widget.patientsTable "selectionChanged(QStringList)"
          Widget.studiesTable "selectAll()") Widget.patientsTable "selectionChanged(QStringList)"
          Widget.studiesTable "selectFirst()") Widget.patientsTable "selectionChanged(QStringList)"
          Widget.studiesTable "selectAll()").count (studiesToSeries method) =
      cs.count (studiesToSeries method) := by
  split <;> simp [count_connect, count_disconnect, studiesToSeries]

theorem agree_setSelectionMode (mode : Int) (s : ctkDICOMTableManager) (hs : Agree s) :
    Agree (setSelectionMode mode s) := by
  unfold setSelectionMode
  split
  · exact hs
  · simp only [autoSelectSeries]
    split
    · rename_i hf
      -- the flag is set: the wiring is taken down and made again for the new mode
      apply agree_setAutoSelectSeries
      exact agree_disable _ hf
    · rename_i hf
      have hflag : s.m_AutoSelectSeries = false := by
        cases h : s.m_AutoSelectSeries with
        | false => rfl
        | true => exact absurd h hf
      have hun := hs.2 hflag
      refine ⟨fun h => absurd h hf, fun _ => ?_⟩
      unfold Unwired at hun ⊢
      simp only [count_reconnect_patients]
      exact hun

theorem agree_construct (ui : UiSetup) (hui : Wired ui.connections ui.patientsSelectionMode) :
    Agree (construct ui) := by
  refine ⟨fun _ => ?_, fun h => by cases h⟩
  exact (wired_congr ui.connections (initConnections ui.connections) ui.patientsSelectionMode
    (count_initConnections _ _) (count_initConnections _ _)).mpr hui

theorem agree_of_reachable (ui : UiSetup) (hui : Wired ui.connections ui.patientsSelectionMode)
    (s : ctkDICOMTableManager) (hreach : Reachable ui s) : Agree s := by
  induction hreach with
  | construct => exact agree_construct ui hui
  | setAutoSelectSeries s autoSelect _ ih => exact agree_setAutoSelectSeries autoSelect s ih
  | setSelectionMode s mode _ ih => exact agree_setSelectionMode mode s ih

end DicomTable
